import Mathlib

/-!
Verification of the batch scheduling and conflict-consistency engine of
`app/scheduler_logic.py` (practical-timetable scheduler).

The embedding models the three persistent tables (`Batches`, `BatchMembers`,
`AssignmentsIndex`) as lists of rows inside a state structure, and each
engine operation as a pure state-transforming function translated from the
Python source.  Conventions of the embedding:

* Time columns are the raw strings the program stores (`_valid_hhmm`
  accepts non-zero-padded forms such as `"9:05"`, and the mutators store
  them verbatim).  They are parsed where the source parses them:
  `hhmm_to_minutes` for `_time_add` and the `_parse_hhmm`/`strptime`
  parses of the conflict detector, and `time_val` for SQLite's `time()`
  sort key, which is NULL (`none`, sorting first) on anything but a
  zero-padded `HH:MM` string.
* Dates stay the `dd.mm.yyyy` strings of the store; chronological ordering
  parses them with `date_key` (the `strptime("%d.%m.%Y")` sort key of
  `_distinct_dates_sorted`).  The key is total where `strptime` would raise
  on a malformed date; the engine's callers only produce parseable dates.
* `SELECT`/`DELETE`/`UPDATE ... WHERE` become list filters and maps, `ORDER
  BY` becomes `List.insertionSort` with the corresponding key, autoincrement
  primary keys become explicit counters (`next_batch_id`, `next_idx_id`)
  that never reuse a value, matching SQLite `AUTOINCREMENT`.
* Wall-clock columns (`created_at`, `updated_at`) are not modelled; no
  operation of the engine reads them back.
-/

namespace Scheduler

/-- The `RULES` configuration dict of `scheduler_logic.py`. -/
structure Rules where
  batch_size_max : Nat
  batch_duration_minutes : Nat
  max_batches_per_day_per_practical : Nat
  min_gap_minutes : Nat

/-- `RULES = {"batch_size_max": 30, "batch_duration_minutes": 180,
"max_batches_per_day_per_practical": 3, "min_gap_minutes": 60}`. -/
def RULES : Rules :=
  { batch_size_max := 30
    batch_duration_minutes := 180
    max_batches_per_day_per_practical := 3
    min_gap_minutes := 60 }

/-- A row of the `Batches` table (timestamp columns omitted). -/
structure BatchRow where
  batch_id : Nat
  practical_code : String
  batch_no : Nat
  day_index : Nat
  date : String
  start_time : String
  end_time : String
  room_lab : Option String
  status : String
deriving DecidableEq, Repr

/-- A row of the `BatchMembers` table (timestamp column omitted). -/
structure MemberRow where
  batch_id : Nat
  reg_no : String
  practical_code : String
deriving DecidableEq, Repr

/-- A row of the `AssignmentsIndex` table (timestamp column omitted).
`idx_id` is the `AUTOINCREMENT` primary key. -/
structure AIRow where
  idx_id : Nat
  reg_no : String
  date : String
  start_time : String
  end_time : String
  practical_code : String
  source_batch_id : Nat
deriving DecidableEq, Repr

/-- The persistent store: the three tables plus the two autoincrement
counters.  Lists hold rows in `rowid` (insertion) order. -/
structure St where
  batches : List BatchRow
  members : List MemberRow
  assignments : List AIRow
  next_batch_id : Nat
  next_idx_id : Nat
deriving DecidableEq, Repr

/-- The freshly initialised database (`init_db` on an empty file);
SQLite `AUTOINCREMENT` hands out ids starting at 1. -/
def init_state : St :=
  { batches := [], members := [], assignments := [], next_batch_id := 1, next_idx_id := 1 }

/-! ### String helpers

Python string scanning is modelled structurally on `String.data`
(`List Char`), which the kernel can evaluate. -/

/-- `text.split(sep)` for a one-character separator, on character lists. -/
def split_char (c : Char) : List Char → List (List Char)
  | [] => [[]]
  | x :: xs =>
    let r := split_char c xs
    if x = c then [] :: r
    else
      match r with
      | [] => [[x]]
      | y :: ys => (x :: y) :: ys

/-- The numeric value of a list of decimal digit characters, `none` if the
list is empty or holds a non-digit. -/
def digits_to_nat : List Char → Option Nat
  | [] => none
  | cs =>
    if cs.all Char.isDigit then
      some (cs.foldl (fun acc c => acc * 10 + (c.toNat - 48)) 0)
    else none

/-- A field matched by a `strptime` two-digit directive (`%H`, `%M`, `%d`,
`%m`): one or two characters, all digits, value within `lo..hi`. -/
def field2_ok (lo hi : Nat) (cs : List Char) : Bool :=
  decide (1 ≤ cs.length) && decide (cs.length ≤ 2) &&
    match digits_to_nat cs with
    | some v => decide (lo ≤ v) && decide (v ≤ hi)
    | none => false

/-- `_valid_hhmm(s)`: whether `datetime.strptime(s, "%H:%M")` succeeds.
`%H` and `%M` each match one or two digit characters (so `"9:05"` is
accepted), the hour must be `0..23` and the minute `0..59`, and nothing may
remain unconsumed. -/
def valid_hhmm (s : String) : Bool :=
  match split_char (':') s.data with
  | [h, m] => field2_ok 0 23 h && field2_ok 0 59 m
  | _ => false

/-- The minute-of-day denoted by a string accepted by `valid_hhmm`
(`hh, mm = map(int, s.split(":")); 60*hh + mm`). -/
def hhmm_to_minutes (s : String) : Nat :=
  match split_char (':') s.data with
  | [h, m] => (digits_to_nat h).getD 0 * 60 + (digits_to_nat m).getD 0
  | _ => 0

/-- Zero-padded rendering of a number below 100 (`f"{v:02d}"`). -/
def two_digits (n : Nat) : String :=
  (if n < 10 then ("0") else ("")) ++ toString n

/-- Rendering of a minute-of-day value as a zero-padded `HH:MM` string
(the `f"{dt.hour:02d}:{dt.minute:02d}"` of `_time_add`). -/
def minutes_to_hhmm (n : Nat) : String :=
  two_digits (n / 60) ++ (":") ++ two_digits (n % 60)

/-- `_time_add(start_hhmm, minutes)`: parse the start string
(`map(int, s.split(":"))`), add through `datetime + timedelta` (so the
result wraps modulo 24 hours), and re-format zero-padded. -/
def time_add (start_hhmm : String) (minutes : Nat) : String :=
  minutes_to_hhmm ((hhmm_to_minutes start_hhmm + minutes) % 1440)

/-- SQLite's `time(s)` on the strings this store can hold: a minute-of-day
value for a zero-padded `HH:MM` string (two digit characters per field,
hour `00..23`, minute `00..59`), NULL (`none`) otherwise — in particular
on the non-zero-padded starts `_valid_hhmm` lets through, e.g. `"9:05"`.
(The other textual forms `time()` accepts, such as `HH:MM:SS`, never occur
in these columns.) -/
def time_val (s : String) : Option Nat :=
  match split_char (':') s.data with
  | [h, m] =>
    if h.length = 2 ∧ m.length = 2 ∧ h.all Char.isDigit ∧ m.all Char.isDigit ∧
        (digits_to_nat h).getD 0 ≤ 23 ∧ (digits_to_nat m).getD 0 ≤ 59 then
      some ((digits_to_nat h).getD 0 * 60 + (digits_to_nat m).getD 0)
    else none
  | _ => none

/-- The ordering `ORDER BY time(col)` induces on `time()` keys: NULL sorts
before every timed value. -/
def tkey_le : Option Nat → Option Nat → Prop
  | none, _ => True
  | some _, none => False
  | some x, some y => x ≤ y

/-- Strict version of [tkey_le]. -/
def tkey_lt : Option Nat → Option Nat → Prop
  | none, none => False
  | none, some _ => True
  | some _, none => False
  | some x, some y => x < y

instance : DecidableRel tkey_le := fun a b =>
  match a, b with
  | none, _ => isTrue trivial
  | some _, none => isFalse (fun h => h)
  | some x, some y => Nat.decLe x y

instance : DecidableRel tkey_lt := fun a b =>
  match a, b with
  | none, none => isFalse (fun h => h)
  | none, some _ => isTrue trivial
  | some _, none => isFalse (fun h => h)
  | some x, some y => Nat.decLt x y

/-- Python's `a or dflt` for an optional string argument: `None` and the
empty string are both falsy and fall back to the default. -/
def py_or (a : Option String) (dflt : String) : String :=
  match a with
  | none => dflt
  | some s => if s = "" then dflt else s

/-- The chronological sort key of a stored `dd.mm.yyyy` date string, as
used by `sorted(..., key=lambda x: datetime.strptime(x, "%d.%m.%Y"))`:
year first, then month, then day.  Total function; garbage components for
strings `strptime` would reject (the engine's callers never produce one). -/
def date_key (s : String) : Nat × Nat × Nat :=
  match split_char ('.') s.data with
  | [d, m, y] => ((digits_to_nat y).getD 0, (digits_to_nat m).getD 0, (digits_to_nat d).getD 0)
  | _ => (0, 0, 0)

/-- Lexicographic (chronological) comparison of date keys. -/
def key_le (a b : Nat × Nat × Nat) : Prop :=
  a.1 < b.1 ∨ (a.1 = b.1 ∧ (a.2.1 < b.2.1 ∨ (a.2.1 = b.2.1 ∧ a.2.2 ≤ b.2.2)))

/-- Strict chronological comparison of date keys. -/
def key_lt (a b : Nat × Nat × Nat) : Prop :=
  a.1 < b.1 ∨ (a.1 = b.1 ∧ (a.2.1 < b.2.1 ∨ (a.2.1 = b.2.1 ∧ a.2.2 < b.2.2)))

instance : DecidableRel key_le := by
  intro a b; unfold key_le; infer_instance

instance : DecidableRel key_lt := by
  intro a b; unfold key_lt; infer_instance

/-- Chronological order on stored date strings. -/
def date_le (a b : String) : Prop :=
  key_le (date_key a) (date_key b)

instance : DecidableRel date_le := by
  intro a b; unfold date_le; infer_instance

/-! ### Conflict detector -/

/-- `_overlap_or_gap_less_than(a_start, a_end, b_start, b_end, min_gap)`
after both intervals have been parsed to minutes: `True` when the
half-open intervals strictly overlap, or when one of the two signed gaps
`B_s - A_e`, `A_s - B_e` lies in `[0, min_gap)`. -/
def overlap_or_gap_less_than (a_s a_e b_s b_e min_gap : Nat) : Bool :=
  if a_s < b_e ∧ b_s < a_e then true
  else
    let gap1 : Int := (b_s : Int) - (a_e : Int)
    let gap2 : Int := (a_s : Int) - (b_e : Int)
    if (0 ≤ gap1 ∧ gap1 < (min_gap : Int)) ∨ (0 ≤ gap2 ∧ gap2 < (min_gap : Int)) then true
    else false

/-- C1 -- The conflict predicate of the claim, written from its words: the
two same-date intervals strictly overlap, or they are disjoint with the gap
between the earlier interval's end and the later interval's start at least
`0` and strictly below the minimum gap. -/
def claim_conflict (a_s a_e b_s b_e min_gap : Nat) : Prop :=
  (a_s < b_e ∧ b_s < a_e) ∨
    (a_e ≤ b_s ∧ b_s - a_e < min_gap) ∨
    (b_e ≤ a_s ∧ a_s - b_e < min_gap)

/-! ### Queries and rule engine -/

/-- The rows of `Batches` belonging to one practical
(`SELECT * FROM Batches WHERE practical_code=?`). -/
def batches_for (s : St) (pc : String) : List BatchRow :=
  s.batches.filter (fun b => decide (b.practical_code = pc))

/-- The rows of `Batches` for one practical and date. -/
def batches_on_day (s : St) (pc d : String) : List BatchRow :=
  s.batches.filter (fun b => decide (b.practical_code = pc ∧ b.date = d))

/-- `count_batches_on_day(practical_code, date)`. -/
def count_batches_on_day (s : St) (pc d : String) : Nat :=
  (batches_on_day s pc d).length

/-- `ensure_rules_before_batch(practical_code, date, intended_batch_no)`,
with the catalog's `total_candidates_for_practical` passed in as the
function `total`.  The Python control flow (two early returns inside the
`total <= 90` block, then the unconditional per-day check) is linearised
into the equivalent `if`-chain. -/
def ensure_rules_before_batch (total : String → Nat) (s : St) (pc d : String)
    (intended_batch_no : Nat) : Bool × String :=
  if total pc ≤ 90 ∧ 3 < intended_batch_no then
    (false, "For ≤90 candidates, maximum 3 batches allowed on a single day.")
  else if total pc ≤ 90 ∧ RULES.max_batches_per_day_per_practical ≤ count_batches_on_day s pc d then
    (false, "Already 3 batches on this day.")
  else if RULES.max_batches_per_day_per_practical ≤ count_batches_on_day s pc d then
    (false, "Max 3 batches per day for a practical.")
  else
    (true, "")

/-- The fold step of `ORDER BY time(end_time) DESC LIMIT 1`: keep the
stored end string whose `time()` key is larger (a NULL key — impossible on
`_time_add` outputs, which are always zero-padded — would sort last under
`DESC`). -/
def later_end (acc x : String) : String :=
  if tkey_lt (time_val acc) (time_val x) then x else acc

/-- `suggest_next_start_time(practical_code, date)`: the stored `end_time`
string with the maximal `time(end_time)` key among that day's batches of
the practical (`ORDER BY time(end_time) DESC`, first row), or `"09:00"` if
the day has none. -/
def suggest_next_start_time (s : St) (pc d : String) : String :=
  match (batches_on_day s pc d).map (fun b => b.end_time) with
  | [] => ("09:00")
  | e :: es => es.foldl later_end e

/-! ### Renumbering service -/

/-- The `ORDER BY time(start_time)` order on one-day batch rows: the
SQLite `time()` key, with NULL keys (rows whose stored start is not a
zero-padded `HH:MM` string, e.g. `"9:05"`) sorting before every timed
row. -/
def start_le (a b : BatchRow) : Prop :=
  tkey_le (time_val a.start_time) (time_val b.start_time)

instance : DecidableRel start_le := by
  intro a b; unfold start_le; infer_instance

instance : IsTotal String date_le :=
  ⟨fun a b => by unfold date_le key_le; omega⟩

instance : IsTrans String date_le :=
  ⟨fun a b c h1 h2 => by unfold date_le key_le at h1 h2 ⊢; omega⟩

instance : IsTotal BatchRow start_le :=
  ⟨fun a b => by
    unfold start_le
    cases time_val a.start_time <;> cases time_val b.start_time <;>
      simp [tkey_le] <;> omega⟩

instance : IsTrans BatchRow start_le :=
  ⟨fun a b c h1 h2 => by
    unfold start_le at *
    revert h1 h2
    cases time_val a.start_time <;> cases time_val b.start_time <;>
      cases time_val c.start_time <;> simp [tkey_le] <;> omega⟩

/-- `_distinct_dates_sorted(practical_code)`: the distinct dates of the
practical's batches, sorted chronologically by the `strptime` key. -/
def distinct_dates_sorted (s : St) (pc : String) : List String :=
  List.insertionSort date_le ((batches_for s pc).map (fun b => b.date)).dedup

/-- One date's batches of a practical in start-time order (the inner query
of `reorder_batches`). -/
def day_batches_sorted (s : St) (pc d : String) : List BatchRow :=
  List.insertionSort start_le (batches_on_day s pc d)

/-- Assign `batch_no = n, n+1, ...` and `day_index = di` along one date's
rows (the inner `UPDATE` loop of `reorder_batches`). -/
def number_group (n di : Nat) : List BatchRow → List BatchRow
  | [] => []
  | b :: bs => { b with batch_no := n, day_index := di } :: number_group (n + 1) di bs

/-- Assign a single contiguous `batch_no` sequence across the date groups,
with `day_index = di, di+1, ...` per group (the outer loop of
`reorder_batches`). -/
def number_groups (n di : Nat) : List (List BatchRow) → List BatchRow
  | [] => []
  | g :: gs => number_group n di g ++ number_groups (n + g.length) (di + 1) gs

/-- The per-date row groups traversed by `reorder_batches`, in
chronological date order. -/
def reorder_groups (s : St) (pc : String) : List (List BatchRow) :=
  (distinct_dates_sorted s pc).map (fun d => day_batches_sorted s pc d)

/-- The practical's rows as rewritten by `reorder_batches`' traversal. -/
def renumbered (s : St) (pc : String) : List BatchRow :=
  number_groups 1 1 (reorder_groups s pc)

/-- `reorder_batches(practical_code)`: renumber `batch_no = 1..n` in
(date, start-time) order across all dates and recompute `day_index` per
date ordinal.  The per-row `UPDATE ... WHERE batch_id=?` statements are
modelled by rebuilding the practical's rows from the traversal (each row
is updated exactly once through its primary key). -/
def reorder_batches (s : St) (pc : String) : St :=
  { s with
    batches := s.batches.filter (fun b => decide (¬ b.practical_code = pc)) ++ renumbered s pc }

/-! ### Conflict lookup -/

/-- The per-student conflict structure: `reg_no` paired with the list of
interfering `(practical_code, start_time, end_time)` triples, the times
being the stored strings.  This is the `conflicts` dict of
`check_conflicts_for_students`: one entry per distinct conflicted
`reg_no`, in first-occurrence order. -/
abbrev ConflictList := List (String × List (String × String × String))

instance : DecidableEq (String × String × String) := instDecidableEqProd

instance : DecidableEq ConflictList := inferInstance

instance : DecidableEq (String × ConflictList) := instDecidableEqProd

instance : DecidableEq (Bool × String × ConflictList) := instDecidableEqProd

/-- The key sequence of a Python dict built by inserting each list element
in turn: one entry per distinct key, kept at its first-insertion position
(a repeated key overwrites the value but does not move). -/
def dict_keys : List String → List String → List String
  | [], _ => []
  | r :: rs, seen => if r ∈ seen then dict_keys rs seen else r :: dict_keys rs (r :: seen)

/-- `check_conflicts_for_students(date, start_time, end_time, reg_nos,
exclude_source_batch_id)`: for each requested student, every
`AssignmentsIndex` row of that date (optionally excluding one source batch)
whose interval — stored strings parsed as the source's
`_parse_hhmm`/`strptime` does — conflicts with the candidate slot;
students with no hit are dropped, and because the result is a Python dict
a repeated `reg_no` yields a single entry (same hits either time). -/
def check_conflicts_for_students (s : St) (d : String) (start_t end_t : String)
    (reg_nos : List String) (exclude_source_batch_id : Option Nat) : ConflictList :=
  let df := s.assignments.filter (fun a =>
    decide (a.date = d) &&
      match exclude_source_batch_id with
      | none => true
      | some x => decide (¬ a.source_batch_id = x))
  ((dict_keys reg_nos []).map (fun r =>
    (r, ((df.filter (fun a => decide (a.reg_no = r))).filter (fun a =>
          overlap_or_gap_less_than (hhmm_to_minutes start_t) (hhmm_to_minutes end_t)
            (hhmm_to_minutes a.start_time) (hhmm_to_minutes a.end_time)
            RULES.min_gap_minutes)).map
        (fun a => (a.practical_code, a.start_time, a.end_time))))).filter
    (fun p => decide (¬ p.2 = []))

/-- `_format_conflicts_for_message(conflicts_dict)`: one line
`reg — practical (start-end)` per hit, echoing the stored time strings
verbatim, joined by newlines. -/
def format_conflicts_for_message (cs : ConflictList) : String :=
  String.intercalate ("\n")
    ((cs.map (fun p => p.2.map (fun h =>
        p.1 ++ (" — ") ++ h.1 ++ (" (") ++ h.2.1 ++ ("-") ++ h.2.2 ++ (")")))).flatten)

/-! ### Transactional mutators -/

/-- `_delete_duplicate_batch_rows(practical_code, date, start_time)`:
collect the ids of batches at the same (practical, date, start) — the
start compared as the raw stored string, so `"9:05"` does not match
`"09:05"` — then delete their `AssignmentsIndex` rows, the batch rows, and
(by the `ON DELETE CASCADE` foreign key) their `BatchMembers` rows. -/
def delete_duplicate_batch_rows (s : St) (pc d : String) (start : String) : St :=
  let dup_ids := (s.batches.filter (fun b =>
    decide (b.practical_code = pc ∧ b.date = d ∧ b.start_time = start))).map (fun b => b.batch_id)
  { s with
    assignments := s.assignments.filter (fun a => decide (¬ a.source_batch_id ∈ dup_ids)),
    batches := s.batches.filter (fun b => decide (¬ b.batch_id ∈ dup_ids)),
    members := s.members.filter (fun m => decide (¬ m.batch_id ∈ dup_ids)) }

/-- Result of `add_batch_autosequence`: `(True, batch_id)` or
`(False, reason)`. -/
inductive AddBatchResult
  | ok (batch_id : Nat)
  | err (msg : String)
deriving DecidableEq, Repr

/-- `add_batch_autosequence(practical_code, date, start_time, room_lab,
status)`.  An absent, empty, or `_valid_hhmm`-rejected start string falls
back to `suggest_next_start_time` (an accepted one is stored verbatim,
zero-padded or not); same-slot duplicates are deleted first; the new row
is inserted with the fresh autoincrement id and the practical is
renumbered. -/
def add_batch_autosequence (total : String → Nat) (s : St) (pc d : String)
    (start_time : Option String) (room_lab : Option String) (status : String) :
    AddBatchResult × St :=
  let intended_no := count_batches_on_day s pc d + 1
  let rule := ensure_rules_before_batch total s pc d intended_no
  if rule.1 = false then (.err rule.2, s)
  else
    let start :=
      match start_time with
      | none => suggest_next_start_time s pc d
      | some str => if valid_hhmm str then str else suggest_next_start_time s pc d
    let s1 := delete_duplicate_batch_rows s pc d start
    let bid := s1.next_batch_id
    let s2 : St :=
      { s1 with
        batches := s1.batches ++
          [{ batch_id := bid, practical_code := pc, batch_no := intended_no, day_index := 1,
             date := d, start_time := start,
             end_time := time_add start RULES.batch_duration_minutes,
             room_lab := room_lab, status := status }],
        next_batch_id := bid + 1 }
    (.ok bid, reorder_batches s2 pc)

/-- Fresh `AssignmentsIndex` rows for the given students at one slot,
taking consecutive autoincrement ids from `next`. -/
def fresh_ai_rows (next : Nat) (d : String) (start_t end_t : String) (pc : String) (bid : Nat) :
    List String → List AIRow
  | [] => []
  | r :: rs =>
    { idx_id := next, reg_no := r, date := d, start_time := start_t, end_time := end_t,
      practical_code := pc, source_batch_id := bid } ::
      fresh_ai_rows (next + 1) d start_t end_t pc bid rs

/-- Re-insertion of snapshot `AssignmentsIndex` rows during rollback: all
columns are kept, but the `INSERT` omits `idx_id`, so SQLite assigns fresh
autoincrement primary keys. -/
def assign_idx_ids (next : Nat) : List AIRow → List AIRow
  | [] => []
  | r :: rs => { r with idx_id := next } :: assign_idx_ids (next + 1) rs

/-- The snapshot taken by `update_batch_times` for rollback: the batch's
current `AssignmentsIndex` rows (`prev_ai`). -/
def upd_prev_ai (s : St) (batch_id : Nat) : List AIRow :=
  s.assignments.filter (fun a => decide (a.source_batch_id = batch_id))

/-- The store after `update_batch_times` deletes the batch's own
`AssignmentsIndex` rows (step 2 of the edit mutator). -/
def upd_stripped (s : St) (batch_id : Nat) : St :=
  { s with assignments := s.assignments.filter (fun a => decide (¬ a.source_batch_id = batch_id)) }

/-- The batch's current member registration numbers, as gathered by
`update_batch_times`. -/
def upd_reg_nos (s : St) (batch_id : Nat) : List String :=
  (s.members.filter (fun m => decide (m.batch_id = batch_id))).map (fun m => m.reg_no)

/-- The start string `update_batch_times` will validate and store
(`new_start = start_time or old_start`): `None` and the empty string are
falsy and fall back to the batch's stored start. -/
def upd_new_start (b : BatchRow) (start_time : Option String) : String :=
  py_or start_time b.start_time

/-- The date string `update_batch_times` will store
(`new_date = date or old_date`), with the same falsy fallback. -/
def upd_new_date (b : BatchRow) (date : Option String) : String :=
  py_or date b.date

/-- The conflict dict computed by `update_batch_times` for the batch's
members against the new slot, over the store with the batch's own index
rows removed. -/
def upd_conflicts (s : St) (batch_id : Nat) (new_date : String) (new_start new_end : String) :
    ConflictList :=
  if upd_reg_nos s batch_id = [] then []
  else
    check_conflicts_for_students (upd_stripped s batch_id) new_date new_start new_end
      (upd_reg_nos s batch_id) none

/-- `update_batch_times(batch_id, date, start_time, room_lab)`: coalesce
the optional arguments against the stored row with Python's falsy `or`
(`new_date = date or old_date`, `new_start = start_time or old_start` —
`None` and `""` behave as absent), validate the coalesced start with
`_valid_hhmm`, snapshot and delete the batch's index rows, re-check its
members against the new slot, and either roll the snapshot back
(conflicts) or commit the new timing, fresh index rows, and
renumbering. -/
def update_batch_times (s : St) (batch_id : Nat)
    (date : Option String) (start_time : Option String) (room_lab : Option String) :
    (Bool × String) × St :=
  match s.batches.filter (fun b => decide (b.batch_id = batch_id)) with
  | [] => ((false, "Batch not found."), s)
  | b :: _ =>
    let practical_code := b.practical_code
    let new_date := upd_new_date b date
    let new_start := upd_new_start b start_time
    if valid_hhmm new_start = false then
      ((false, "Invalid start time. Use HH:MM (24h)."), s)
    else
      let new_end := time_add new_start RULES.batch_duration_minutes
      let prev_ai := upd_prev_ai s batch_id
      let s1 : St := upd_stripped s batch_id
      let reg_nos := upd_reg_nos s batch_id
      let conflicts := upd_conflicts s batch_id new_date new_start new_end
      if conflicts = [] then
        let s2 : St :=
          { s1 with
            batches := s1.batches.map (fun x =>
              if x.batch_id = batch_id then
                { x with date := new_date, start_time := new_start, end_time := new_end,
                         room_lab := match room_lab with | some r => some r | none => x.room_lab }
              else x),
            assignments := s1.assignments ++
              fresh_ai_rows s1.next_idx_id new_date new_start new_end practical_code batch_id reg_nos,
            next_idx_id := s1.next_idx_id + reg_nos.length }
        ((true, "Batch timing updated."), reorder_batches s2 practical_code)
      else
        let s2 : St :=
          { s1 with
            assignments := s1.assignments ++ assign_idx_ids s1.next_idx_id prev_ai,
            next_idx_id := s1.next_idx_id + prev_ai.length }
        ((false,
          "Conflicts detected for existing batch members with new timing. Update aborted.\n\n" ++
            format_conflicts_for_message conflicts), s2)

/-- `delete_batch(batch_id)`: remove its index rows and the batch row
(members cascade), then renumber the owning practical. -/
def delete_batch (s : St) (batch_id : Nat) : (Bool × String) × St :=
  match s.batches.filter (fun b => decide (b.batch_id = batch_id)) with
  | [] => ((false, "Batch " ++ toString batch_id ++ " not found."), s)
  | b :: _ =>
    let s1 : St :=
      { s with
        assignments := s.assignments.filter (fun a => decide (¬ a.source_batch_id = batch_id)),
        batches := s.batches.filter (fun x => decide (¬ x.batch_id = batch_id)),
        members := s.members.filter (fun m => decide (¬ m.batch_id = batch_id)) }
    ((true, "Batch " ++ toString batch_id ++ " deleted."), reorder_batches s1 b.practical_code)

/-- `add_students_to_batch(batch_id, practical_code, reg_nos)`: capacity
pre-check against the raw request length, all-or-nothing conflict check,
then `INSERT OR IGNORE` membership rows and one fresh index row per
requested student (any stale `(reg_no, batch_id)` index row is deleted
first). -/
def add_students_to_batch (s : St) (batch_id : Nat) (practical_code : String)
    (reg_nos : List String) : (Bool × String × ConflictList) × St :=
  match s.batches.filter (fun b => decide (b.batch_id = batch_id)) with
  | [] => ((false, "Batch not found.", []), s)
  | b :: _ =>
    let current := (s.members.filter (fun m => decide (m.batch_id = batch_id))).length
    if RULES.batch_size_max < current + reg_nos.length then
      ((false, "Cannot exceed " ++ toString RULES.batch_size_max ++ " students per batch.", []), s)
    else
      let conflicts := check_conflicts_for_students s b.date b.start_time b.end_time reg_nos none
      if conflicts = [] then
        let s1 := reg_nos.foldl (fun acc r =>
          if acc.members.any (fun m => decide (m.batch_id = batch_id ∧ m.reg_no = r)) then acc
          else { acc with members := acc.members ++
                  [{ batch_id := batch_id, reg_no := r, practical_code := practical_code }] }) s
        let s2 := reg_nos.foldl (fun acc r =>
          { acc with
            assignments :=
              (acc.assignments.filter (fun a =>
                decide (¬ (a.reg_no = r ∧ a.source_batch_id = batch_id)))) ++
                [{ idx_id := acc.next_idx_id, reg_no := r, date := b.date,
                   start_time := b.start_time, end_time := b.end_time,
                   practical_code := practical_code, source_batch_id := batch_id }],
            next_idx_id := acc.next_idx_id + 1 }) s1
        ((true, "Added " ++ toString reg_nos.length ++ " student(s).", []), s2)
      else
        ((false,
          "Conflict(s) detected. No students were added.\n\n" ++
            format_conflicts_for_message conflicts, conflicts), s)

/-- `remove_student_from_batch(batch_id, reg_no)`: delete the membership
row and its index row; always succeeds. -/
def remove_student_from_batch (s : St) (batch_id : Nat) (reg_no : String) : St :=
  { s with
    members := s.members.filter (fun m => decide (¬ (m.batch_id = batch_id ∧ m.reg_no = reg_no))),
    assignments := s.assignments.filter (fun a =>
      decide (¬ (a.source_batch_id = batch_id ∧ a.reg_no = reg_no))) }

/-- The states producible by the engine's mutators from a fresh database,
with arbitrary call arguments (the read-only candidate catalog `total` may
differ between calls). -/
inductive Reachable : St → Prop
  | init : Reachable init_state
  | add_batch (total : String → Nat) (s : St) (pc d : String) (st rm : Option String)
      (status : String) :
      Reachable s → Reachable (add_batch_autosequence total s pc d st rm status).2
  | update (s : St) (bid : Nat) (d st rm : Option String) :
      Reachable s → Reachable (update_batch_times s bid d st rm).2
  | delete (s : St) (bid : Nat) :
      Reachable s → Reachable (delete_batch s bid).2
  | add_members (s : St) (bid : Nat) (pc : String) (regs : List String) :
      Reachable s → Reachable (add_students_to_batch s bid pc regs).2
  | remove_member (s : St) (bid : Nat) (reg : String) :
      Reachable s → Reachable (remove_student_from_batch s bid reg)

/-! ### Derived notions used by the stated properties -/

/-- The columns of a `Batches` row that renumbering never writes
(everything except `batch_no` and `day_index`). -/
def row_core (b : BatchRow) : Nat × String × String × String × String × Option String × String :=
  (b.batch_id, b.practical_code, b.date, b.start_time, b.end_time, b.room_lab, b.status)

/-- The columns of an `AssignmentsIndex` row other than the `idx_id`
primary key. -/
def ai_core (a : AIRow) : String × String × String × String × String × Nat :=
  (a.reg_no, a.date, a.start_time, a.end_time, a.practical_code, a.source_batch_id)

/-- The renumbering traversal order on batch rows: dates non-decreasing by
key, and within one stored date the `time(start_time)` keys
non-decreasing. -/
def chron_le (a b : BatchRow) : Prop :=
  key_le (date_key a.date) (date_key b.date) ∧
    (a.date = b.date → tkey_le (time_val a.start_time) (time_val b.start_time))

/-- The density/ordering property of one practical's batch rows after
renumbering: the batch numbers are exactly `{1..N}` (each once), any row
the traversal visits strictly earlier (strictly earlier date key, or same
date and strictly smaller SQLite `time(start_time)` key — NULL keys, i.e.
non-zero-padded stored starts, before all timed ones) carries a strictly
smaller batch number, and `day_index` is the 1-based ordinal of the row's
date in the chronologically sorted distinct date list. -/
def DenseList (l : List BatchRow) : Prop :=
  ((l.map (fun b => b.batch_no)).Perm (List.range' 1 l.length)) ∧
  (∀ b ∈ l, ∀ b' ∈ l,
    (key_lt (date_key b.date) (date_key b'.date) ∨
        (b.date = b'.date ∧ tkey_lt (time_val b.start_time) (time_val b'.start_time))) →
      b.batch_no < b'.batch_no) ∧
  (∀ b ∈ l,
    b.day_index =
      (List.insertionSort date_le ((l.map (fun x => x.date)).dedup)).indexOf b.date + 1)

/-- `(batch_id, reg_no)` pairs are unique in `BatchMembers` (the table's
`UNIQUE(batch_id, reg_no)` constraint). -/
def MembersUnique (s : St) : Prop :=
  s.members.Pairwise (fun m m' => ¬ (m.batch_id = m'.batch_id ∧ m.reg_no = m'.reg_no))

/-- The `batch_id` primary keys of the `Batches` rows are pairwise
distinct. -/
def IdsNodup (s : St) : Prop :=
  (s.batches.map (fun b => b.batch_id)).Nodup

/-- Every `batch_id` is below the autoincrement counter. -/
def IdsBound (s : St) : Prop :=
  ∀ b ∈ s.batches, b.batch_id < s.next_batch_id

/-- The inductive invariant behind the density claim: primary keys are
sound and every practical's rows satisfy `DenseList`. -/
def InvC2 (s : St) : Prop :=
  IdsNodup s ∧ IdsBound s ∧ ∀ pc, DenseList (batches_for s pc)

/-- Every batch row's `end_time` is its `start_time` plus the configured
duration (clock addition, as computed by `_time_add`). -/
def EndOk (s : St) : Prop :=
  ∀ b ∈ s.batches, b.end_time = time_add b.start_time RULES.batch_duration_minutes

/-! ### Concrete scenario states (used by counterexamples and witnesses)

All traces start from a fresh store and use only the engine's mutators, so
every one of them is `Reachable`.  The candidate-catalog function used
throughout reports 50 candidates for every practical (`total ≤ 90`). -/

/-- A catalog in which every practical has 50 candidates. -/
def tot50 : String → Nat := fun _ => 50

/-- Batch 1: practical `P1` on `01.03.2025`, `09:00`–`12:00`. -/
def demo1 : St :=
  (add_batch_autosequence tot50 init_state ("P1") ("01.03.2025") (some ("09:00")) none
    ("draft")).2

/-- ... plus batch 2: practical `P2` on `01.03.2025`, `14:00`–`17:00`. -/
def demo2 : St :=
  (add_batch_autosequence tot50 demo1 ("P2") ("01.03.2025") (some ("14:00")) none ("draft")).2

/-- ... plus student `S1` as a member of batch 1. -/
def demo3 : St := (add_students_to_batch demo2 1 ("P1") [("S1")]).2

/-- ... plus the same student `S1` as a member of batch 2 (its `14:00`
slot is a legal 120-minute gap away from batch 1). -/
def demo4 : St := (add_students_to_batch demo3 2 ("P2") [("S1")]).2

/-- Two batches of the same practical `P1` on two different dates. -/
def dup2 : St :=
  (add_batch_autosequence tot50 demo1 ("P1") ("02.03.2025") (some ("09:00")) none ("draft")).2

/-- ... plus student `S1` as a member of batch 1 (`P1`, `01.03.2025`). -/
def dup3 : St := (add_students_to_batch dup2 1 ("P1") [("S1")]).2

/-- ... plus the same student `S1` as a member of batch 2 — the second
batch of the same practical `P1`, on the other date. -/
def dup4 : St := (add_students_to_batch dup3 2 ("P1") [("S1")]).2

/-- Three batches of `P1` on `01.03.2025` (`09:00`, `12:00`, `15:00`). -/
def full_day : St :=
  (add_batch_autosequence tot50
    (add_batch_autosequence tot50 demo1 ("P1") ("01.03.2025") none none ("draft")).2
    ("P1") ("01.03.2025") none none ("draft")).2

/-- Batch 2 of the `demo` trace: practical `P2` on `01.03.2025` at
`10:00`–`13:00` (overlapping batch 1), with `S1` a member of batch 1. -/
def clash2 : St :=
  (add_batch_autosequence tot50 demo3 ("P2") ("01.03.2025") (some ("10:00")) none ("draft")).2

/-- One batch of `P1` created with the `_valid_hhmm`-accepted but
non-zero-padded explicit start `"9:05"`, stored verbatim. -/
def mix1 : St :=
  (add_batch_autosequence tot50 init_state ("P1") ("01.03.2025") (some ("9:05")) none
    ("draft")).2

/-- ... plus a second `P1` batch on the same date at the earlier, padded
start `"08:00"`.  `time("9:05")` is NULL and sorts first, so renumbering
gives the `"9:05"` row `batch_no = 1` and the `"08:00"` row
`batch_no = 2`, against start-time order. -/
def mix2 : St :=
  (add_batch_autosequence tot50 mix1 ("P1") ("01.03.2025") (some ("08:00")) none ("draft")).2

/-- Thirty distinct registration numbers. -/
def regs30 : List String :=
  [("R01"), ("R02"), ("R03"), ("R04"), ("R05"), ("R06"), ("R07"), ("R08"), ("R09"), ("R10"),
   ("R11"), ("R12"), ("R13"), ("R14"), ("R15"), ("R16"), ("R17"), ("R18"), ("R19"), ("R20"),
   ("R21"), ("R22"), ("R23"), ("R24"), ("R25"), ("R26"), ("R27"), ("R28"), ("R29"), ("R30")]

/-- A request of 31 students, the first of which (`S1`) is committed to
batch 1's overlapping slot. -/
def regs31 : List String := ("S1") :: regs30

/-- Batch 1 of `P1` filled to its 30-seat capacity. -/
def cap_full : St := (add_students_to_batch demo1 1 ("P1") regs30).2

/-!
## Supporting lemmas
-/

theorem key_le_refl (a : Nat × Nat × Nat) : key_le a a := by unfold key_le; omega

theorem key_le_trans {a b c : Nat × Nat × Nat} (h1 : key_le a b) (h2 : key_le b c) :
    key_le a c := by
  unfold key_le at *; omega

theorem key_le_total (a b : Nat × Nat × Nat) : key_le a b ∨ key_le b a := by
  unfold key_le; omega

theorem key_lt_not_le {a b : Nat × Nat × Nat} (h1 : key_lt a b) (h2 : key_le b a) : False := by
  unfold key_lt at h1; unfold key_le at h2; omega

theorem key_lt_irrefl (a : Nat × Nat × Nat) : ¬ key_lt a a := by unfold key_lt; omega

theorem tkey_le_refl (a : Option Nat) : tkey_le a a := by
  cases a <;> simp [tkey_le]

theorem tkey_le_trans {a b c : Option Nat} (h1 : tkey_le a b) (h2 : tkey_le b c) :
    tkey_le a c := by
  cases a <;> cases b <;> cases c <;> simp [tkey_le] at * <;> omega

theorem tkey_lt_not_le {a b : Option Nat} (h1 : tkey_lt a b) (h2 : tkey_le b a) : False := by
  cases a <;> cases b <;> simp [tkey_lt, tkey_le] at * <;> omega

theorem tkey_lt_irrefl (a : Option Nat) : ¬ tkey_lt a a := by
  cases a <;> simp [tkey_lt]

theorem tkey_le_of_lt {a b : Option Nat} (h : tkey_lt a b) : tkey_le a b := by
  cases a <;> cases b <;> simp [tkey_lt, tkey_le] at * <;> omega

theorem tkey_le_of_not_lt {a b : Option Nat} (h : ¬ tkey_lt a b) : tkey_le b a := by
  cases a <;> cases b <;> simp [tkey_lt, tkey_le] at * <;> omega

theorem later_end_le (e y : String) :
    tkey_le (time_val e) (time_val (later_end e y)) ∧
      tkey_le (time_val y) (time_val (later_end e y)) := by
  unfold later_end
  by_cases h : tkey_lt (time_val e) (time_val y)
  · rw [if_pos h]
    exact ⟨tkey_le_of_lt h, tkey_le_refl _⟩
  · rw [if_neg h]
    exact ⟨tkey_le_refl _, tkey_le_of_not_lt h⟩

theorem foldl_later_le (e : String) (es : List String) :
    ∀ x ∈ e :: es, tkey_le (time_val x) (time_val (es.foldl later_end e)) := by
  induction es generalizing e with
  | nil =>
    intro x hx
    simp only [List.mem_singleton] at hx
    subst hx
    exact tkey_le_refl _
  | cons y ys ih =>
    intro x hx
    simp only [List.mem_cons] at hx
    have h1 := ih (later_end e y)
    rw [List.foldl_cons]
    rcases hx with rfl | rfl | hx
    · exact tkey_le_trans (later_end_le x y).1 (h1 _ (List.mem_cons_self _ _))
    · exact tkey_le_trans (later_end_le e x).2 (h1 _ (List.mem_cons_self _ _))
    · exact h1 x (List.mem_cons_of_mem _ hx)

theorem foldl_later_mem (e : String) (es : List String) :
    es.foldl later_end e = e ∨ es.foldl later_end e ∈ es := by
  induction es generalizing e with
  | nil => left; rfl
  | cons y ys ih =>
    rw [List.foldl_cons]
    rcases ih (later_end e y) with h | h
    · rw [h]
      unfold later_end
      by_cases hc : tkey_lt (time_val e) (time_val y)
      · rw [if_pos hc]
        right
        exact List.mem_cons_self _ _
      · rw [if_neg hc]
        left
        rfl
    · right
      exact List.mem_cons_of_mem _ h

theorem time_val_minutes {s : String} {v : Nat} (h : time_val s = some v) :
    hhmm_to_minutes s = v := by
  unfold time_val at h
  unfold hhmm_to_minutes
  cases hs : split_char (':') s.data with
  | nil => rw [hs] at h; simp at h
  | cons a t =>
    cases t with
    | nil => rw [hs] at h; simp at h
    | cons b t2 =>
      cases t2 with
      | nil =>
        rw [hs] at h
        show (digits_to_nat a).getD 0 * 60 + (digits_to_nat b).getD 0 = v
        rcases ite_eq_iff.mp h with ⟨-, h2⟩ | ⟨-, h2⟩
        · exact Option.some.inj h2
        · exact Option.noConfusion h2
      | cons c t3 => rw [hs] at h; simp at h

theorem number_group_map_no (n di : Nat) (g : List BatchRow) :
    (number_group n di g).map (fun b => b.batch_no) = List.range' n g.length := by
  induction g generalizing n with
  | nil => rfl
  | cons b bs ih =>
    simp only [number_group, List.map_cons, List.length_cons, List.range'_succ, ih]

theorem number_group_map_core (n di : Nat) (g : List BatchRow) :
    (number_group n di g).map row_core = g.map row_core := by
  induction g generalizing n with
  | nil => rfl
  | cons b bs ih => simp only [number_group, List.map_cons, ih]; rfl

theorem number_groups_map_core (n di : Nat) (gs : List (List BatchRow)) :
    (number_groups n di gs).map row_core = gs.flatten.map row_core := by
  induction gs generalizing n di with
  | nil => rfl
  | cons g gs ih =>
    simp only [number_groups, List.flatten_cons, List.map_append, number_group_map_core, ih]

theorem number_groups_length (n di : Nat) (gs : List (List BatchRow)) :
    (number_groups n di gs).length = gs.flatten.length := by
  have h := congrArg List.length (number_groups_map_core n di gs)
  rw [List.length_map, List.length_map] at h
  exact h

theorem number_groups_map_no (n di : Nat) (gs : List (List BatchRow)) :
    (number_groups n di gs).map (fun b => b.batch_no) = List.range' n gs.flatten.length := by
  induction gs generalizing n di with
  | nil => rfl
  | cons g gs ih =>
    rw [number_groups, List.map_append, number_group_map_no, ih, List.flatten_cons,
      List.length_append]
    have h := List.range'_append n g.length gs.flatten.length 1
    simp only [one_mul] at h
    rw [Nat.add_comm gs.flatten.length g.length] at h
    exact h

theorem mem_number_group_day {b' : BatchRow} {n di : Nat} {g : List BatchRow}
    (h : b' ∈ number_group n di g) : b'.day_index = di := by
  induction g generalizing n with
  | nil => cases h
  | cons b bs ih =>
    rcases List.mem_cons.mp h with rfl | h2
    · rfl
    · exact ih h2

theorem mem_map_core_of_mem {l₁ l₂ : List BatchRow} (h : l₁.map row_core = l₂.map row_core)
    {b' : BatchRow} (hb : b' ∈ l₁) : ∃ b ∈ l₂, row_core b' = row_core b := by
  have h1 : row_core b' ∈ l₂.map row_core := by
    rw [← h]; exact List.mem_map_of_mem row_core hb
  rcases List.mem_map.mp h1 with ⟨b, hb2, he⟩
  exact ⟨b, hb2, he.symm⟩

theorem mem_number_groups_day {b' : BatchRow} {n di : Nat} {gs : List (List BatchRow)}
    (h : b' ∈ number_groups n di gs) :
    ∃ i, ∃ hi : i < gs.length, b'.day_index = di + i ∧
      ∃ b ∈ gs.get ⟨i, hi⟩, row_core b' = row_core b := by
  induction gs generalizing n di with
  | nil => cases h
  | cons g gs ih =>
    rcases List.mem_append.mp h with h1 | h1
    · refine ⟨0, by simp, ?_, ?_⟩
      · rw [Nat.add_zero]
        exact mem_number_group_day h1
      · exact mem_map_core_of_mem (number_group_map_core n di g) h1
    · rcases ih h1 with ⟨i, hi, hday, b, hb, he⟩
      exact ⟨i + 1, by simpa using Nat.succ_lt_succ hi, by omega, b, by simpa using hb, he⟩

theorem row_core_fields {a b : BatchRow} (h : row_core a = row_core b) :
    a.batch_id = b.batch_id ∧ a.practical_code = b.practical_code ∧ a.date = b.date ∧
      a.start_time = b.start_time ∧ a.end_time = b.end_time := by
  unfold row_core at h
  simp only [Prod.mk.injEq] at h
  tauto

theorem chron_le_congr {a b x y : BatchRow} (ha : row_core a = row_core x)
    (hb : row_core b = row_core y) (h : chron_le x y) : chron_le a b := by
  obtain ⟨-, -, hd, hs, -⟩ := row_core_fields ha
  obtain ⟨-, -, hd2, hs2, -⟩ := row_core_fields hb
  unfold chron_le at h ⊢
  rw [hd, hs, hd2, hs2]
  exact h

theorem pairwise_chron_of_map_core {l₁ l₂ : List BatchRow}
    (h : l₁.map row_core = l₂.map row_core) (hp : l₂.Pairwise chron_le) :
    l₁.Pairwise chron_le := by
  induction l₁ generalizing l₂ with
  | nil => exact List.Pairwise.nil
  | cons a t ih =>
    cases l₂ with
    | nil => simp at h
    | cons b t₂ =>
      simp only [List.map_cons, List.cons.injEq] at h
      rcases h with ⟨hab, ht⟩
      rcases List.pairwise_cons.mp hp with ⟨hbrel, hpt⟩
      refine List.pairwise_cons.mpr ⟨?_, ih ht hpt⟩
      intro x hx
      rcases mem_map_core_of_mem ht hx with ⟨y, hy, he⟩
      exact chron_le_congr hab he (hbrel y hy)

theorem mem_day_batches {s : St} {pc d : String} {b : BatchRow}
    (h : b ∈ day_batches_sorted s pc d) :
    b ∈ s.batches ∧ b.practical_code = pc ∧ b.date = d := by
  have h1 : b ∈ batches_on_day s pc d :=
    (List.perm_insertionSort start_le (batches_on_day s pc d)).mem_iff.mp h
  rcases List.mem_filter.mp h1 with ⟨hb, hp⟩
  have h2 := of_decide_eq_true hp
  exact ⟨hb, h2.1, h2.2⟩

theorem mem_day_batches_of (s : St) (pc : String) {b : BatchRow} (hb : b ∈ s.batches)
    (hc : b.practical_code = pc) : b ∈ day_batches_sorted s pc b.date := by
  apply (List.perm_insertionSort start_le (batches_on_day s pc b.date)).mem_iff.mpr
  exact List.mem_filter.mpr ⟨hb, decide_eq_true ⟨hc, rfl⟩⟩

theorem pairwise_chron_day (s : St) (pc d : String) :
    (day_batches_sorted s pc d).Pairwise chron_le := by
  have hs : (day_batches_sorted s pc d).Pairwise start_le :=
    List.sorted_insertionSort start_le (batches_on_day s pc d)
  refine hs.imp_of_mem ?_
  intro a b ha hb hle
  have hda := (mem_day_batches ha).2.2
  have hdb := (mem_day_batches hb).2.2
  exact ⟨by rw [hda, hdb]; exact key_le_refl _, fun _ => hle⟩

theorem dates_sorted (s : St) (pc : String) :
    (distinct_dates_sorted s pc).Pairwise date_le :=
  List.sorted_insertionSort date_le _

theorem dates_nodup (s : St) (pc : String) : (distinct_dates_sorted s pc).Nodup :=
  ((List.perm_insertionSort date_le _).nodup_iff).mpr (List.nodup_dedup _)

theorem mem_dates_iff {s : St} {pc d : String} :
    d ∈ distinct_dates_sorted s pc ↔ ∃ b ∈ batches_for s pc, b.date = d := by
  unfold distinct_dates_sorted
  rw [(List.perm_insertionSort date_le _).mem_iff, List.mem_dedup, List.mem_map]

theorem pairwise_chron_flatten (s : St) (pc : String) :
    (reorder_groups s pc).flatten.Pairwise chron_le := by
  rw [List.pairwise_flatten]
  constructor
  · intro l hl
    rcases List.mem_map.mp hl with ⟨d, _, rfl⟩
    exact pairwise_chron_day s pc d
  · unfold reorder_groups
    rw [List.pairwise_map]
    have hcomb := (dates_sorted s pc).and (dates_nodup s pc)
    refine hcomb.imp_of_mem ?_
    intro d d' _ _ hdd x hx y hy
    obtain ⟨hle, hne⟩ := hdd
    have hxd := (mem_day_batches hx).2.2
    have hyd := (mem_day_batches hy).2.2
    refine ⟨by rw [hxd, hyd]; exact hle, fun he => ?_⟩
    rw [hxd, hyd] at he
    exact absurd he hne

theorem renumbered_pairwise_chron (s : St) (pc : String) :
    (renumbered s pc).Pairwise chron_le :=
  pairwise_chron_of_map_core (number_groups_map_core 1 1 (reorder_groups s pc))
    (pairwise_chron_flatten s pc)

theorem renumbered_pairwise_no (s : St) (pc : String) :
    (renumbered s pc).Pairwise (fun a b => a.batch_no < b.batch_no) := by
  have h : ((renumbered s pc).map (fun b => b.batch_no)).Pairwise (· < ·) := by
    rw [renumbered, number_groups_map_no]
    exact List.pairwise_lt_range' _ _
  exact List.pairwise_map.mp h

theorem mem_renumbered_core {s : St} {pc : String} {b' : BatchRow} (h : b' ∈ renumbered s pc) :
    ∃ b, (b ∈ s.batches ∧ b.practical_code = pc) ∧ row_core b' = row_core b := by
  rcases mem_map_core_of_mem (number_groups_map_core 1 1 (reorder_groups s pc)) h with
    ⟨b, hb, he⟩
  rcases List.mem_flatten.mp hb with ⟨g, hg, hbg⟩
  rcases List.mem_map.mp hg with ⟨d, _, rfl⟩
  have h2 := mem_day_batches hbg
  exact ⟨b, ⟨h2.1, h2.2.1⟩, he⟩

theorem renumbered_code {s : St} {pc : String} {b' : BatchRow} (h : b' ∈ renumbered s pc) :
    b'.practical_code = pc := by
  rcases mem_renumbered_core h with ⟨b, ⟨-, hc⟩, he⟩
  exact (row_core_fields he).2.1.trans hc

theorem core_mem_renumbered {s : St} {pc : String} {b : BatchRow}
    (hb : b ∈ s.batches) (hc : b.practical_code = pc) :
    ∃ b' ∈ renumbered s pc, row_core b' = row_core b := by
  have hd : b ∈ day_batches_sorted s pc b.date := mem_day_batches_of s pc hb hc
  have hdm : b.date ∈ distinct_dates_sorted s pc :=
    mem_dates_iff.mpr ⟨b, List.mem_filter.mpr ⟨hb, decide_eq_true hc⟩, rfl⟩
  have hfl : b ∈ (reorder_groups s pc).flatten :=
    List.mem_flatten.mpr ⟨day_batches_sorted s pc b.date,
      List.mem_map_of_mem (fun d => day_batches_sorted s pc d) hdm, hd⟩
  rcases mem_map_core_of_mem (number_groups_map_core 1 1 (reorder_groups s pc)).symm hfl with
    ⟨b', hb', he⟩
  exact ⟨b', hb', he.symm⟩

theorem batches_for_reorder_self (s : St) (pc : String) :
    batches_for (reorder_batches s pc) pc = renumbered s pc := by
  unfold batches_for reorder_batches
  rw [List.filter_append, List.filter_filter]
  have h1 : (s.batches.filter
      (fun b => decide (b.practical_code = pc) && decide (¬ b.practical_code = pc))) = [] := by
    rw [List.filter_eq_nil_iff]
    intro a _
    simp [decide_not]
  have h2 : (renumbered s pc).filter (fun b => decide (b.practical_code = pc)) =
      renumbered s pc := by
    rw [List.filter_eq_self]
    intro a ha
    exact decide_eq_true (renumbered_code ha)
  rw [h1, h2, List.nil_append]

theorem batches_for_reorder_other (s : St) (pc pc' : String) (h : pc' ≠ pc) :
    batches_for (reorder_batches s pc) pc' = batches_for s pc' := by
  unfold batches_for reorder_batches
  rw [List.filter_append, List.filter_filter]
  have h1 : (renumbered s pc).filter (fun b => decide (b.practical_code = pc')) = [] := by
    rw [List.filter_eq_nil_iff]
    intro a ha hc
    exact h ((of_decide_eq_true hc).symm.trans (renumbered_code ha))
  have h2 : ∀ b ∈ s.batches,
      (decide (b.practical_code = pc') && decide (¬ b.practical_code = pc)) =
        decide (b.practical_code = pc') := by
    intro b _
    by_cases hb : b.practical_code = pc'
    · simp [hb, h]
    · simp [hb]
  rw [h1, List.append_nil, List.filter_congr h2]

theorem mem_of_mem_reorder {s : St} {pc : String} {b' : BatchRow}
    (h : b' ∈ (reorder_batches s pc).batches) :
    ∃ b ∈ s.batches, row_core b' = row_core b := by
  unfold reorder_batches at h
  rcases List.mem_append.mp h with h1 | h1
  · exact ⟨b', (List.mem_filter.mp h1).1, rfl⟩
  · rcases mem_renumbered_core h1 with ⟨b, ⟨hb, -⟩, he⟩
    exact ⟨b, hb, he⟩

theorem mem_reorder_of_mem {s : St} {b : BatchRow} (hb : b ∈ s.batches) (pc : String) :
    ∃ b' ∈ (reorder_batches s pc).batches, row_core b' = row_core b := by
  by_cases hc : b.practical_code = pc
  · rcases core_mem_renumbered hb hc with ⟨b', hb', he⟩
    exact ⟨b', List.mem_append.mpr (Or.inr hb'), he⟩
  · refine ⟨b, List.mem_append.mpr (Or.inl ?_), rfl⟩
    exact List.mem_filter.mpr ⟨hb, decide_eq_true hc⟩

theorem dense_ordered_of_pairwise {l : List BatchRow}
    (h1 : l.Pairwise (fun a b => a.batch_no < b.batch_no))
    (h2 : l.Pairwise chron_le) :
    ∀ b ∈ l, ∀ b' ∈ l,
      (key_lt (date_key b.date) (date_key b'.date) ∨
          (b.date = b'.date ∧ tkey_lt (time_val b.start_time) (time_val b'.start_time))) →
        b.batch_no < b'.batch_no := by
  intro b hb b' hb' hcond
  rcases List.mem_iff_get.mp hb with ⟨i, rfl⟩
  rcases List.mem_iff_get.mp hb' with ⟨j, rfl⟩
  rcases lt_trichotomy (i : Nat) (j : Nat) with hij | hij | hij
  · exact List.pairwise_iff_get.mp h1 i j hij
  · have hij2 : i = j := Fin.ext hij
    subst hij2
    rcases hcond with hk | ⟨-, hs⟩
    · exact absurd hk (key_lt_irrefl _)
    · exact absurd hs (tkey_lt_irrefl _)
  · have hc := List.pairwise_iff_get.mp h2 j i hij
    rcases hcond with hk | ⟨hd, hs⟩
    · exact absurd hc.1 (fun hle => key_lt_not_le hk hle)
    · exact absurd (hc.2 hd.symm) (fun hle => tkey_lt_not_le hs hle)

theorem dedup_flatten_replicate :
    ∀ (dates : List String) (k : String → Nat), dates.Nodup → (∀ d ∈ dates, 0 < k d) →
      ((dates.map (fun d => List.replicate (k d) d)).flatten).dedup = dates := by
  intro dates
  induction dates with
  | nil => intro k _ _; rfl
  | cons d ds ih =>
    intro k hnd hk
    rw [List.map_cons, List.flatten_cons]
    have hdnotin : d ∉ ds := (List.nodup_cons.mp hnd).1
    have hdrest : d ∉ (ds.map (fun x => List.replicate (k x) x)).flatten := by
      intro hmem
      rcases List.mem_flatten.mp hmem with ⟨l, hl, hdl⟩
      rcases List.mem_map.mp hl with ⟨d', hd', rfl⟩
      exact hdnotin ((List.eq_of_mem_replicate hdl) ▸ hd')
    have hrep : ∀ m, 0 < m → ∀ rest : List String, d ∉ rest →
        (List.replicate m d ++ rest).dedup = d :: rest.dedup := by
      intro m
      induction m with
      | zero => omega
      | succ mm ihm =>
        intro _ rest hrest
        cases mm with
        | zero =>
          rw [List.replicate_one, List.singleton_append, List.dedup_cons_of_not_mem hrest]
        | succ m2 =>
          rw [List.replicate_succ, List.cons_append, List.dedup_cons_of_mem
            (List.mem_append_left rest (List.mem_replicate.mpr ⟨by omega, rfl⟩))]
          exact ihm (by omega) rest hrest
    rw [hrep (k d) (hk d (List.mem_cons_self d ds)) _ hdrest,
      ih k (List.nodup_cons.mp hnd).2 (fun x hx => hk x (List.mem_cons_of_mem d hx))]

theorem day_batches_map_date (s : St) (pc d : String) :
    (day_batches_sorted s pc d).map (fun b => b.date) =
      List.replicate (day_batches_sorted s pc d).length d := by
  have h := List.eq_replicate_of_mem (a := d)
    (l := (day_batches_sorted s pc d).map (fun b => b.date)) ?_
  · rw [h, List.length_map]
  · intro x hx
    rcases List.mem_map.mp hx with ⟨b, hb, rfl⟩
    exact (mem_day_batches hb).2.2

theorem map_date_eq_core (l : List BatchRow) :
    (l.map row_core).map (fun c => c.2.2.1) = l.map (fun b => b.date) := by
  rw [List.map_map]; rfl

theorem renumbered_map_date (s : St) (pc : String) :
    (renumbered s pc).map (fun b => b.date) =
      ((distinct_dates_sorted s pc).map
        (fun d => List.replicate (day_batches_sorted s pc d).length d)).flatten := by
  have h1 : (renumbered s pc).map (fun b => b.date) =
      ((renumbered s pc).map row_core).map (fun c => c.2.2.1) := by
    rw [map_date_eq_core]
  rw [h1, renumbered, number_groups_map_core, map_date_eq_core, List.map_flatten]
  have h2 : ((reorder_groups s pc).map (List.map (fun b => b.date))) =
      (distinct_dates_sorted s pc).map
        (fun d => List.replicate (day_batches_sorted s pc d).length d) := by
    unfold reorder_groups
    rw [List.map_map]
    exact List.map_congr_left (fun d _ => day_batches_map_date s pc d)
  rw [h2]

theorem day_batches_nonempty {s : St} {pc d : String} (h : d ∈ distinct_dates_sorted s pc) :
    0 < (day_batches_sorted s pc d).length := by
  rcases mem_dates_iff.mp h with ⟨b, hb, rfl⟩
  rcases List.mem_filter.mp hb with ⟨hbs, hbc⟩
  exact List.length_pos.mpr (List.ne_nil_of_mem
    (mem_day_batches_of s pc hbs (of_decide_eq_true hbc)))

theorem renumbered_dates (s : St) (pc : String) :
    (((renumbered s pc).map (fun b => b.date)).dedup) = distinct_dates_sorted s pc := by
  rw [renumbered_map_date]
  exact dedup_flatten_replicate (distinct_dates_sorted s pc)
    (fun d => (day_batches_sorted s pc d).length) (dates_nodup s pc)
    (fun d hd => day_batches_nonempty hd)

theorem renumbered_day_index {s : St} {pc : String} {b' : BatchRow}
    (h : b' ∈ renumbered s pc) :
    b'.day_index = (distinct_dates_sorted s pc).indexOf b'.date + 1 := by
  rcases mem_number_groups_day h with ⟨i, hi, hday, b, hb, he⟩
  have hlen : (reorder_groups s pc).length = (distinct_dates_sorted s pc).length := by
    unfold reorder_groups; rw [List.length_map]
  have hi2 : i < (distinct_dates_sorted s pc).length := hlen ▸ hi
  have hget : (reorder_groups s pc).get ⟨i, hi⟩ =
      day_batches_sorted s pc ((distinct_dates_sorted s pc).get ⟨i, hi2⟩) := by
    unfold reorder_groups
    rw [List.get_map]
  rw [hget] at hb
  have hbd : b.date = (distinct_dates_sorted s pc).get ⟨i, hi2⟩ := (mem_day_batches hb).2.2
  have hbd2 : b'.date = (distinct_dates_sorted s pc).get ⟨i, hi2⟩ :=
    (row_core_fields he).2.2.1.trans hbd
  rw [hbd2]
  have hidx : (distinct_dates_sorted s pc).indexOf
      ((distinct_dates_sorted s pc).get ⟨i, hi2⟩) = i := by
    have := List.indexOf_getElem (dates_nodup s pc) i hi2
    simpa using this
  rw [hidx]
  omega

theorem dense_renumbered (s : St) (pc : String) : DenseList (renumbered s pc) := by
  refine ⟨?_, ?_, ?_⟩
  · have h1 : (renumbered s pc).map (fun b => b.batch_no) =
        List.range' 1 (renumbered s pc).length := by
      rw [renumbered, number_groups_map_no, number_groups_length]
    rw [h1]
  · exact dense_ordered_of_pairwise (renumbered_pairwise_no s pc)
      (renumbered_pairwise_chron s pc)
  · intro b hb
    rw [renumbered_dates s pc,
      List.Sorted.insertionSort_eq (dates_sorted s pc)]
    exact renumbered_day_index hb

theorem dense_reorder (s : St) (pc : String) :
    DenseList (batches_for (reorder_batches s pc) pc) := by
  rw [batches_for_reorder_self]
  exact dense_renumbered s pc

theorem flatten_map_perm {f g : String → List BatchRow} (h : ∀ d, (f d).Perm (g d)) :
    ∀ dates : List String, ((dates.map f).flatten).Perm ((dates.map g).flatten) := by
  intro dates
  induction dates with
  | nil => exact List.Perm.refl []
  | cons d ds ih =>
    rw [List.map_cons, List.map_cons, List.flatten_cons, List.flatten_cons]
    exact (h d).append ih

theorem batches_on_day_eq (s : St) (pc d : String) :
    batches_on_day s pc d = (batches_for s pc).filter (fun b => decide (b.date = d)) := by
  unfold batches_on_day batches_for
  rw [List.filter_filter]
  apply List.filter_congr
  intro b _
  by_cases h1 : b.practical_code = pc <;> by_cases h2 : b.date = d <;> simp [h1, h2]

theorem flatten_filter_partition :
    ∀ (dates : List String) (l : List BatchRow), dates.Nodup →
      (∀ b ∈ l, b.date ∈ dates) →
      ((dates.map (fun d => l.filter (fun b => decide (b.date = d)))).flatten).Perm l := by
  intro dates
  induction dates with
  | nil =>
    intro l _ hcov
    have hl : l = [] := by
      rw [List.eq_nil_iff_forall_not_mem]
      intro a ha
      exact absurd (hcov a ha) (List.not_mem_nil a.date)
    subst hl
    exact List.Perm.refl _
  | cons d ds ih =>
    intro l hnd hcov
    rw [List.map_cons, List.flatten_cons]
    have hdnotin : d ∉ ds := (List.nodup_cons.mp hnd).1
    have hstep : ds.map (fun d' => l.filter (fun b => decide (b.date = d'))) =
        ds.map (fun d' =>
          (l.filter (fun b => !decide (b.date = d))).filter
            (fun b => decide (b.date = d'))) := by
      apply List.map_congr_left
      intro d' hd'
      rw [List.filter_filter]
      apply List.filter_congr
      intro b _
      by_cases h2 : b.date = d'
      · have hne : ¬ d' = d := fun he => hdnotin (he ▸ hd')
        simp [h2, hne]
      · simp [h2]
    rw [hstep]
    have hcov2 : ∀ b ∈ l.filter (fun b => !decide (b.date = d)), b.date ∈ ds := by
      intro b hb
      rcases List.mem_filter.mp hb with ⟨hbl, hbd⟩
      have hne : ¬ b.date = d := by
        intro he
        rw [he] at hbd
        simp at hbd
      rcases List.mem_cons.mp (hcov b hbl) with he | hmem
      · exact absurd he hne
      · exact hmem
    have hperm := ih (l.filter (fun b => !decide (b.date = d))) (List.nodup_cons.mp hnd).2 hcov2
    exact ((List.Perm.append_left _ hperm).trans
      (List.filter_append_perm (fun b => decide (b.date = d)) l))

theorem groups_flatten_perm (s : St) (pc : String) :
    (reorder_groups s pc).flatten.Perm (batches_for s pc) := by
  have h1 : (reorder_groups s pc).flatten.Perm
      ((distinct_dates_sorted s pc).map
        (fun d => (batches_for s pc).filter (fun b => decide (b.date = d)))).flatten := by
    unfold reorder_groups
    apply flatten_map_perm
    intro d
    rw [← batches_on_day_eq]
    exact List.perm_insertionSort start_le (batches_on_day s pc d)
  exact h1.trans (flatten_filter_partition (distinct_dates_sorted s pc) (batches_for s pc)
    (dates_nodup s pc) (fun b hb => mem_dates_iff.mpr ⟨b, hb, rfl⟩))

theorem map_id_eq_core (l : List BatchRow) :
    (l.map row_core).map (fun c => c.1) = l.map (fun b => b.batch_id) := by
  rw [List.map_map]; rfl

theorem renumbered_ids (s : St) (pc : String) :
    (renumbered s pc).map (fun b => b.batch_id) =
      (reorder_groups s pc).flatten.map (fun b => b.batch_id) := by
  rw [← map_id_eq_core, renumbered, number_groups_map_core, map_id_eq_core]

theorem filter_not_code (l : List BatchRow) (pc : String) :
    l.filter (fun b => decide (¬ b.practical_code = pc)) =
      l.filter (fun b => !decide (b.practical_code = pc)) := by
  apply List.filter_congr
  intro b _
  rw [decide_not]

theorem reorder_ids_perm (s : St) (pc : String) :
    ((reorder_batches s pc).batches.map (fun b => b.batch_id)).Perm
      (s.batches.map (fun b => b.batch_id)) := by
  unfold reorder_batches
  rw [List.map_append, renumbered_ids]
  have h2 := ((groups_flatten_perm s pc).map (fun b => b.batch_id))
  refine (List.Perm.append_left _ h2).trans ?_
  rw [← List.map_append]
  apply List.Perm.map
  rw [filter_not_code]
  unfold batches_for
  exact (List.perm_append_comm).trans
    (List.filter_append_perm (fun b => decide (b.practical_code = pc)) s.batches)

theorem batch_id_inj {s : St} (hn : IdsNodup s) {a b : BatchRow} (ha : a ∈ s.batches)
    (hb : b ∈ s.batches) (he : a.batch_id = b.batch_id) : a = b :=
  List.inj_on_of_nodup_map hn ha hb he

theorem dense_nil : DenseList ([] : List BatchRow) := by
  refine ⟨?_, ?_, ?_⟩
  · simp [List.range']
  · intro b hb; cases hb
  · intro b hb; cases hb

theorem invc2_init : InvC2 init_state := by
  refine ⟨List.nodup_nil, ?_, fun _ => dense_nil⟩
  intro b hb; cases hb

theorem invc2_of_batches_eq {s s' : St} (hb : s'.batches = s.batches)
    (hn : s'.next_batch_id = s.next_batch_id) (h : InvC2 s) : InvC2 s' := by
  obtain ⟨h1, h2, h3⟩ := h
  refine ⟨?_, ?_, ?_⟩
  · unfold IdsNodup
    rw [hb]
    exact h1
  · intro b hbm
    rw [hn]
    exact h2 b (hb ▸ hbm)
  · intro pc
    unfold batches_for
    rw [hb]
    exact h3 pc

theorem invc2_reorder {s : St} (pc : String) (hn : IdsNodup s) (hbd : IdsBound s)
    (hd : ∀ pc', pc' ≠ pc → DenseList (batches_for s pc')) :
    InvC2 (reorder_batches s pc) := by
  refine ⟨?_, ?_, ?_⟩
  · exact ((reorder_ids_perm s pc).nodup_iff).mpr hn
  · intro b' hb'
    rcases mem_of_mem_reorder hb' with ⟨b, hbs, he⟩
    have hnx : (reorder_batches s pc).next_batch_id = s.next_batch_id := rfl
    rw [hnx, (row_core_fields he).1]
    exact hbd b hbs
  · intro pc'
    by_cases hp : pc' = pc
    · rw [hp]
      exact dense_reorder s pc
    · rw [batches_for_reorder_other s pc pc' hp]
      exact hd pc' hp

theorem filter_filter_keep {l : List BatchRow} {p q : BatchRow → Bool}
    (h : ∀ b ∈ l, p b = true → q b = true) :
    (l.filter q).filter p = l.filter p := by
  rw [List.filter_filter]
  apply List.filter_congr
  intro b hb
  by_cases hp : p b = true
  · simp [hp, h b hb hp]
  · simp only [Bool.not_eq_true] at hp
    simp [hp]

theorem filter_map_invariant {l : List BatchRow} {f : BatchRow → BatchRow}
    {p : BatchRow → Bool}
    (h : ∀ x ∈ l, p (f x) = p x ∧ (p x = true → f x = x)) :
    (l.map f).filter p = l.filter p := by
  induction l with
  | nil => rfl
  | cons x t ih =>
    rw [List.map_cons, List.filter_cons, List.filter_cons]
    have hx := h x (List.mem_cons_self x t)
    have ht := ih (fun y hy => h y (List.mem_cons_of_mem x hy))
    rw [hx.1]
    by_cases hp : p x = true
    · rw [if_pos hp, if_pos hp, hx.2 hp, ht]
    · rw [if_neg hp, if_neg hp, ht]

theorem map_ids_of_preserve {l : List BatchRow} {f : BatchRow → BatchRow}
    (h : ∀ x ∈ l, (f x).batch_id = x.batch_id) :
    (l.map f).map (fun b => b.batch_id) = l.map (fun b => b.batch_id) := by
  rw [List.map_map]
  exact List.map_congr_left (fun x hx => h x hx)

theorem foldl_batches_eq (f : St → String → St)
    (hf : ∀ acc r, (f acc r).batches = acc.batches ∧ (f acc r).next_batch_id = acc.next_batch_id) :
    ∀ (regs : List String) (acc : St),
      (regs.foldl f acc).batches = acc.batches ∧
        (regs.foldl f acc).next_batch_id = acc.next_batch_id := by
  intro regs
  induction regs with
  | nil => intro acc; exact ⟨rfl, rfl⟩
  | cons r rs ih =>
    intro acc
    rw [List.foldl_cons]
    obtain ⟨h1, h2⟩ := ih (f acc r)
    exact ⟨h1.trans (hf acc r).1, h2.trans (hf acc r).2⟩

theorem dup_ids_keep {s : St} (h1 : IdsNodup s) {pc pc' d : String} {stm : String}
    (hp : ¬ pc' = pc) :
    ∀ b ∈ s.batches, decide (b.practical_code = pc') = true →
      decide (¬ b.batch_id ∈
        ((s.batches.filter (fun x =>
          decide (x.practical_code = pc ∧ x.date = d ∧ x.start_time = stm))).map
            (fun x => x.batch_id))) = true := by
  intro b hb hc
  apply decide_eq_true
  intro hmem
  rcases List.mem_map.mp hmem with ⟨b2, hb2, hbe⟩
  rcases List.mem_filter.mp hb2 with ⟨hb2s, hb2p⟩
  have heq : b = b2 := batch_id_inj h1 hb hb2s hbe.symm
  have hbc := (of_decide_eq_true hb2p).1
  rw [← heq] at hbc
  exact hp ((of_decide_eq_true hc).symm.trans hbc)

theorem invc2_add_core (s : St) (pc d : String) (stm : String) (rm : Option String)
    (status : String) (no : Nat) (h1 : IdsNodup s) (h2 : IdsBound s)
    (h3 : ∀ pc', DenseList (batches_for s pc')) :
    InvC2 (reorder_batches
      { delete_duplicate_batch_rows s pc d stm with
        batches := (delete_duplicate_batch_rows s pc d stm).batches ++
          [{ batch_id := (delete_duplicate_batch_rows s pc d stm).next_batch_id,
             practical_code := pc, batch_no := no, day_index := 1, date := d,
             start_time := stm, end_time := time_add stm RULES.batch_duration_minutes,
             room_lab := rm, status := status }],
        next_batch_id := (delete_duplicate_batch_rows s pc d stm).next_batch_id + 1 } pc) := by
  have hs1b : (delete_duplicate_batch_rows s pc d stm).batches =
      s.batches.filter (fun b => decide (¬ b.batch_id ∈
        ((s.batches.filter (fun x =>
          decide (x.practical_code = pc ∧ x.date = d ∧ x.start_time = stm))).map
            (fun x => x.batch_id)))) := rfl
  have hs1n : (delete_duplicate_batch_rows s pc d stm).next_batch_id = s.next_batch_id := rfl
  have hsub : ((delete_duplicate_batch_rows s pc d stm).batches.map
      (fun b => b.batch_id)).Sublist (s.batches.map (fun b => b.batch_id)) := by
    rw [hs1b]
    exact List.Sublist.map _ (List.filter_sublist s.batches)
  have hmem1 : ∀ b ∈ (delete_duplicate_batch_rows s pc d stm).batches, b ∈ s.batches := by
    intro b hb
    rw [hs1b] at hb
    exact (List.mem_filter.mp hb).1
  apply invc2_reorder
  · unfold IdsNodup
    simp only [List.map_append, List.map_cons, List.map_nil]
    apply List.Nodup.append
    · exact List.Nodup.sublist hsub h1
    · simp
    · intro a ha hmem
      rcases List.mem_map.mp (hsub.subset ha) with ⟨b, hb, hbe⟩
      have hlt : a < s.next_batch_id := hbe ▸ h2 b hb
      rw [List.mem_singleton] at hmem
      rw [hmem, hs1n] at hlt
      omega
  · intro b hb
    rcases List.mem_append.mp hb with hb1 | hb1
    · have := h2 b (hmem1 b hb1)
      simp only [hs1n]
      omega
    · rw [List.mem_singleton] at hb1
      rw [hb1]
      simp only [hs1n]
      omega
  · intro pc' hp
    unfold batches_for
    simp only [List.filter_append]
    have hnew : (List.filter (fun b => decide (b.practical_code = pc'))
        [{ batch_id := (delete_duplicate_batch_rows s pc d stm).next_batch_id,
           practical_code := pc, batch_no := no, day_index := 1, date := d,
           start_time := stm, end_time := time_add stm RULES.batch_duration_minutes,
           room_lab := rm, status := status }] : List BatchRow) = [] := by
      rw [List.filter_cons]
      rw [if_neg]
      · rfl
      · simp only [decide_eq_true_eq]
        exact fun he => hp (he.symm ▸ rfl)
    rw [hnew, List.append_nil, hs1b,
      filter_filter_keep (dup_ids_keep h1 hp)]
    exact h3 pc'

theorem invc2_add_batch (total : String → Nat) (s : St) (pc d : String)
    (st rm : Option String) (status : String) (h : InvC2 s) :
    InvC2 (add_batch_autosequence total s pc d st rm status).2 := by
  obtain ⟨h1, h2, h3⟩ := h
  unfold add_batch_autosequence
  by_cases hr : (ensure_rules_before_batch total s pc d (count_batches_on_day s pc d + 1)).1
      = false
  · rw [if_pos hr]
    exact ⟨h1, h2, h3⟩
  · rw [if_neg hr]
    exact invc2_add_core s pc d _ rm status _ h1 h2 h3

theorem invc2_delete (s : St) (bid : Nat) (h : InvC2 s) : InvC2 (delete_batch s bid).2 := by
  obtain ⟨h1, h2, h3⟩ := h
  unfold delete_batch
  cases hfil : s.batches.filter (fun b => decide (b.batch_id = bid)) with
  | nil => exact ⟨h1, h2, h3⟩
  | cons b tl =>
    simp only []
    have hbmem : b ∈ s.batches ∧ b.batch_id = bid := by
      have hh : b ∈ s.batches.filter (fun x => decide (x.batch_id = bid)) := by
        rw [hfil]; exact List.mem_cons_self b tl
      exact ⟨(List.mem_filter.mp hh).1, of_decide_eq_true (List.mem_filter.mp hh).2⟩
    apply invc2_reorder
    · exact List.Nodup.sublist (List.Sublist.map _ (List.filter_sublist s.batches)) h1
    · intro x hx
      exact h2 x (List.mem_filter.mp hx).1
    · intro pc' hp
      unfold batches_for
      rw [filter_filter_keep ?_]
      · exact h3 pc'
      · intro x hx hc
        apply decide_eq_true
        intro hxe
        have hxb : x = b := batch_id_inj h1 hx hbmem.1 (hxe.trans hbmem.2.symm)
        rw [hxb] at hc
        exact hp (of_decide_eq_true hc).symm

theorem invc2_update (s : St) (bid : Nat) (dA stA rmA : Option String) (h : InvC2 s) :
    InvC2 (update_batch_times s bid dA stA rmA).2 := by
  obtain ⟨h1, h2, h3⟩ := h
  unfold update_batch_times
  cases hfil : s.batches.filter (fun b => decide (b.batch_id = bid)) with
  | nil => exact ⟨h1, h2, h3⟩
  | cons b tl =>
    simp only []
    have hbmem : b ∈ s.batches ∧ b.batch_id = bid := by
      have hh : b ∈ s.batches.filter (fun x => decide (x.batch_id = bid)) := by
        rw [hfil]; exact List.mem_cons_self b tl
      exact ⟨(List.mem_filter.mp hh).1, of_decide_eq_true (List.mem_filter.mp hh).2⟩
    split
    · exact ⟨h1, h2, h3⟩
    · split
      · apply invc2_reorder
        · unfold IdsNodup
          rw [map_ids_of_preserve ?_]
          · exact h1
          · intro x hx
            split <;> rfl
        · intro x hx
          rcases List.mem_map.mp hx with ⟨y, hy, rfl⟩
          have hyb := h2 y hy
          split <;> exact hyb
        · intro pc' hp
          unfold batches_for
          rw [filter_map_invariant ?_]
          · exact h3 pc'
          · intro x hx
            constructor
            · split <;> rfl
            · intro hc
              rw [if_neg ?_]
              intro hxe
              have hxb : x = b := batch_id_inj h1 hx hbmem.1 (hxe.trans hbmem.2.symm)
              rw [hxb] at hc
              exact hp (of_decide_eq_true hc).symm
      · exact invc2_of_batches_eq rfl rfl ⟨h1, h2, h3⟩

theorem invc2_add_members (s : St) (bid : Nat) (pc : String) (regs : List String)
    (h : InvC2 s) : InvC2 (add_students_to_batch s bid pc regs).2 := by
  obtain ⟨h1, h2, h3⟩ := h
  unfold add_students_to_batch
  cases hfil : s.batches.filter (fun b => decide (b.batch_id = bid)) with
  | nil => exact ⟨h1, h2, h3⟩
  | cons b tl =>
    simp only []
    split
    · exact ⟨h1, h2, h3⟩
    · split
      · have e2 := foldl_batches_eq (fun (acc : St) (r : String) =>
          { acc with
            assignments := (acc.assignments.filter (fun a =>
              decide (¬ (a.reg_no = r ∧ a.source_batch_id = bid)))) ++
              [{ idx_id := acc.next_idx_id, reg_no := r, date := b.date,
                 start_time := b.start_time, end_time := b.end_time,
                 practical_code := pc, source_batch_id := bid }],
            next_idx_id := acc.next_idx_id + 1 })
          (fun acc r => ⟨rfl, rfl⟩) regs
        have e1 := foldl_batches_eq (fun (acc : St) (r : String) =>
          if (acc.members.any (fun m => decide (m.batch_id = bid ∧ m.reg_no = r))) = true
          then acc
          else { acc with members := acc.members ++
            [{ batch_id := bid, reg_no := r, practical_code := pc }] })
          (fun acc r => by dsimp only; split <;> exact ⟨rfl, rfl⟩) regs
        refine invc2_of_batches_eq ?_ ?_ ⟨h1, h2, h3⟩
        · exact ((e2 _).1).trans ((e1 s).1)
        · exact ((e2 _).2).trans ((e1 s).2)
      · exact ⟨h1, h2, h3⟩

theorem reachable_invc2 {s : St} (h : Reachable s) : InvC2 s := by
  induction h with
  | init => exact invc2_init
  | add_batch total s pc d st rm status _ ih => exact invc2_add_batch total s pc d st rm status ih
  | update s bid dA stA rmA _ ih => exact invc2_update s bid dA stA rmA ih
  | delete s bid _ ih => exact invc2_delete s bid ih
  | add_members s bid pc regs _ ih => exact invc2_add_members s bid pc regs ih
  | remove_member s bid reg _ ih => exact invc2_of_batches_eq rfl rfl ih

theorem endok_batches_eq {s s' : St} (hb : s'.batches = s.batches) (h : EndOk s) : EndOk s' := by
  intro b hbm
  exact h b (hb ▸ hbm)

theorem endok_reorder {s : St} (pc : String) (h : EndOk s) : EndOk (reorder_batches s pc) := by
  intro b' hb'
  rcases mem_of_mem_reorder hb' with ⟨b, hbs, he⟩
  obtain ⟨-, -, -, hs, hee⟩ := row_core_fields he
  rw [hs, hee]
  exact h b hbs

theorem endok_add_batch (total : String → Nat) (s : St) (pc d : String)
    (st rm : Option String) (status : String) (h : EndOk s) :
    EndOk (add_batch_autosequence total s pc d st rm status).2 := by
  unfold add_batch_autosequence
  by_cases hr : (ensure_rules_before_batch total s pc d (count_batches_on_day s pc d + 1)).1
      = false
  · rw [if_pos hr]
    exact h
  · rw [if_neg hr]
    apply endok_reorder
    intro b hb
    rcases List.mem_append.mp hb with h1 | h1
    · exact h b (List.mem_filter.mp h1).1
    · rw [List.mem_singleton] at h1
      subst h1
      rfl

theorem endok_update (s : St) (bid : Nat) (dA stA rmA : Option String) (h : EndOk s) :
    EndOk (update_batch_times s bid dA stA rmA).2 := by
  unfold update_batch_times
  cases hfil : s.batches.filter (fun b => decide (b.batch_id = bid)) with
  | nil => exact h
  | cons b tl =>
    simp only []
    split
    · exact h
    · split
      · apply endok_reorder
        intro x hx
        rcases List.mem_map.mp hx with ⟨y, hy, rfl⟩
        split
        · rfl
        · exact h y hy
      · exact h

theorem endok_delete (s : St) (bid : Nat) (h : EndOk s) : EndOk (delete_batch s bid).2 := by
  unfold delete_batch
  cases hfil : s.batches.filter (fun b => decide (b.batch_id = bid)) with
  | nil => exact h
  | cons b tl =>
    simp only []
    apply endok_reorder
    intro x hx
    exact h x (List.mem_filter.mp hx).1

theorem endok_add_members (s : St) (bid : Nat) (pc : String) (regs : List String)
    (h : EndOk s) : EndOk (add_students_to_batch s bid pc regs).2 := by
  unfold add_students_to_batch
  cases hfil : s.batches.filter (fun b => decide (b.batch_id = bid)) with
  | nil => exact h
  | cons b tl =>
    simp only []
    split
    · exact h
    · split
      · have e2 := foldl_batches_eq (fun (acc : St) (r : String) =>
          { acc with
            assignments := (acc.assignments.filter (fun a =>
              decide (¬ (a.reg_no = r ∧ a.source_batch_id = bid)))) ++
              [{ idx_id := acc.next_idx_id, reg_no := r, date := b.date,
                 start_time := b.start_time, end_time := b.end_time,
                 practical_code := pc, source_batch_id := bid }],
            next_idx_id := acc.next_idx_id + 1 })
          (fun acc r => ⟨rfl, rfl⟩) regs
        have e1 := foldl_batches_eq (fun (acc : St) (r : String) =>
          if (acc.members.any (fun m => decide (m.batch_id = bid ∧ m.reg_no = r))) = true
          then acc
          else { acc with members := acc.members ++
            [{ batch_id := bid, reg_no := r, practical_code := pc }] })
          (fun acc r => by dsimp only; split <;> exact ⟨rfl, rfl⟩) regs
        exact endok_batches_eq (((e2 _).1).trans ((e1 s).1)) h
      · exact h

theorem reachable_endok {s : St} (h : Reachable s) : EndOk s := by
  induction h with
  | init => intro b hb; cases hb
  | add_batch total s pc d st rm status _ ih => exact endok_add_batch total s pc d st rm status ih
  | update s bid dA stA rmA _ ih => exact endok_update s bid dA stA rmA ih
  | delete s bid _ ih => exact endok_delete s bid ih
  | add_members s bid pc regs _ ih => exact endok_add_members s bid pc regs ih
  | remove_member s bid reg _ ih => exact endok_batches_eq rfl ih

theorem members_unique_of_eq {s s' : St} (hm : s'.members = s.members)
    (h : MembersUnique s) : MembersUnique s' := by
  unfold MembersUnique
  rw [hm]
  exact h

theorem members_unique_filter {s : St} {p : MemberRow → Bool} (h : MembersUnique s) :
    (s.members.filter p).Pairwise
      (fun m m' => ¬ (m.batch_id = m'.batch_id ∧ m.reg_no = m'.reg_no)) :=
  List.Pairwise.sublist (List.filter_sublist s.members) h

theorem foldl_members_eq (f : St → String → St)
    (hf : ∀ acc r, (f acc r).members = acc.members) :
    ∀ (regs : List String) (acc : St), (regs.foldl f acc).members = acc.members := by
  intro regs
  induction regs with
  | nil => intro acc; rfl
  | cons r rs ih =>
    intro acc
    rw [List.foldl_cons]
    exact (ih (f acc r)).trans (hf acc r)

theorem members_unique_fold1 (bid : Nat) (pc : String) :
    ∀ (regs : List String) (acc : St), MembersUnique acc →
      MembersUnique (regs.foldl (fun acc r =>
        if (acc.members.any (fun m => decide (m.batch_id = bid ∧ m.reg_no = r))) = true
        then acc
        else { acc with members := acc.members ++
          [{ batch_id := bid, reg_no := r, practical_code := pc }] }) acc) := by
  intro regs
  induction regs with
  | nil => intro acc h; exact h
  | cons r rs ih =>
    intro acc h
    rw [List.foldl_cons]
    apply ih
    by_cases hc : (acc.members.any (fun m => decide (m.batch_id = bid ∧ m.reg_no = r))) = true
    · rw [if_pos hc]
      exact h
    · rw [if_neg hc]
      unfold MembersUnique
      rw [List.pairwise_append]
      refine ⟨h, by simp, ?_⟩
      intro m hm m2 hm2
      rw [List.mem_singleton] at hm2
      subst hm2
      rintro ⟨he1, he2⟩
      apply hc
      rw [List.any_eq_true]
      exact ⟨m, hm, decide_eq_true ⟨he1, he2⟩⟩

theorem reachable_members_unique {s : St} (h : Reachable s) : MembersUnique s := by
  induction h with
  | init => exact List.Pairwise.nil
  | add_batch total s pc d st rm status _ ih =>
    unfold add_batch_autosequence
    by_cases hr : (ensure_rules_before_batch total s pc d (count_batches_on_day s pc d + 1)).1
        = false
    · rw [if_pos hr]
      exact ih
    · rw [if_neg hr]
      exact members_unique_filter ih
  | update s bid dA stA rmA _ ih =>
    unfold update_batch_times
    cases hfil : s.batches.filter (fun b => decide (b.batch_id = bid)) with
    | nil => exact ih
    | cons b tl =>
      simp only []
      split
      · exact ih
      · split
        · exact ih
        · exact ih
  | delete s bid _ ih =>
    unfold delete_batch
    cases hfil : s.batches.filter (fun b => decide (b.batch_id = bid)) with
    | nil => exact ih
    | cons b tl =>
      simp only []
      exact members_unique_filter ih
  | add_members s bid pc regs _ ih =>
    unfold add_students_to_batch
    cases hfil : s.batches.filter (fun b => decide (b.batch_id = bid)) with
    | nil => exact ih
    | cons b tl =>
      simp only []
      split
      · exact ih
      · split
        · have e2 := foldl_members_eq (fun (acc : St) (r : String) =>
            { acc with
              assignments := (acc.assignments.filter (fun a =>
                decide (¬ (a.reg_no = r ∧ a.source_batch_id = bid)))) ++
                [{ idx_id := acc.next_idx_id, reg_no := r, date := b.date,
                   start_time := b.start_time, end_time := b.end_time,
                   practical_code := pc, source_batch_id := bid }],
              next_idx_id := acc.next_idx_id + 1 })
            (fun acc r => rfl) regs
          exact members_unique_of_eq (e2 _) (members_unique_fold1 bid pc regs s ih)
        · exact ih
  | remove_member s bid reg _ ih => exact members_unique_filter ih

theorem assign_idx_ids_core (rows : List AIRow) :
    ∀ n, (assign_idx_ids n rows).map ai_core = rows.map ai_core := by
  induction rows with
  | nil => intro n; rfl
  | cons r rs ih =>
    intro n
    simp only [assign_idx_ids, List.map_cons, ih]
    rfl

theorem filter_not_src (l : List AIRow) (bid : Nat) :
    l.filter (fun a => decide (¬ a.source_batch_id = bid)) =
      l.filter (fun a => !decide (a.source_batch_id = bid)) := by
  apply List.filter_congr
  intro a _
  rw [decide_not]

theorem rollback_ai_perm (s : St) (bid : Nat) (n : Nat) :
    (((upd_stripped s bid).assignments ++ assign_idx_ids n (upd_prev_ai s bid)).map
      ai_core).Perm (s.assignments.map ai_core) := by
  rw [List.map_append, assign_idx_ids_core, ← List.map_append]
  apply List.Perm.map
  show ((s.assignments.filter (fun a => decide (¬ a.source_batch_id = bid))) ++
      (s.assignments.filter (fun a => decide (a.source_batch_id = bid)))).Perm s.assignments
  rw [filter_not_src]
  exact List.perm_append_comm.trans
    (List.filter_append_perm (fun a => decide (a.source_batch_id = bid)) s.assignments)

/-- C2 (amended): in every state reachable through the engine's mutators
(create batch, edit timing, delete batch, add/remove members), each
practical's batch numbers are exactly `{1..N}` with each value once,
numbered in the order of dates sorted chronologically (parsed
`dd.mm.yyyy`) and, within one date, by the SQLite `time(start_time)` sort
key — equal to start-time order whenever the stored starts are zero-padded
`HH:MM` strings, but placing rows with a non-zero-padded stored start
(NULL key) before all timed rows — and `day_index` is the 1-based ordinal
of the batch's date in the chronologically sorted distinct date list. -/
theorem C2_density (s : St) (h : Reachable s) (pc : String) :
    DenseList (batches_for s pc) :=
  (reachable_invc2 h).2.2 pc

/-- C2 witness: the invariant instantiated at the concrete reachable
two-batch state `demo2`, for practical `P2`. -/
theorem C2_density_witness : DenseList (batches_for demo2 ("P2")) :=
  C2_density demo2
    (Reachable.add_batch tot50 demo1 ("P2") ("01.03.2025") (some ("14:00")) none ("draft")
      (Reachable.add_batch tot50 init_state ("P1") ("01.03.2025") (some ("09:00")) none
        ("draft") Reachable.init)) ("P2")

/-- C9: in every reachable state — so after any create or edit mutation —
every batch row's `end_time` equals its `start_time` plus the configured
batch duration (180 minutes, clock addition as computed by `_time_add`);
no mutator ever sets `end_time` independently. -/
theorem C9_end_time (s : St) (h : Reachable s) :
    ∀ b ∈ s.batches, b.end_time = time_add b.start_time RULES.batch_duration_minutes :=
  reachable_endok h

/-- C9 witness: the invariant instantiated at the concrete reachable
state `demo2` and its first batch row (09:00-12:00). -/
theorem C9_end_time_witness :
    ({ batch_id := 1, practical_code := ("P1"), batch_no := 1, day_index := 1,
       date := ("01.03.2025"), start_time := ("09:00"), end_time := ("12:00"),
       room_lab := none, status := ("draft") } : BatchRow).end_time =
      time_add ("09:00") RULES.batch_duration_minutes :=
  C9_end_time demo2
    (Reachable.add_batch tot50 demo1 ("P2") ("01.03.2025") (some ("14:00")) none ("draft")
      (Reachable.add_batch tot50 init_state ("P1") ("01.03.2025") (some ("09:00")) none
        ("draft") Reachable.init))
    { batch_id := 1, practical_code := ("P1"), batch_no := 1, day_index := 1,
      date := ("01.03.2025"), start_time := ("09:00"), end_time := ("12:00"),
      room_lab := none, status := ("draft") } (by decide)

/-- C2 counterexample: the reachable state `mix2` is built by two
normally-completing create-batch calls for `P1` on one date, the first
with the `_valid_hhmm`-accepted but non-zero-padded start `"9:05"`, the
second with `"08:00"`.  SQLite's `time("9:05")` is NULL and sorts first in
the renumbering query, so the `"08:00"` batch — the chronologically
earlier one by start time — receives the larger batch number. -/
theorem C2_numbering_defies_start_order :
    Reachable mix2 ∧
    valid_hhmm ("9:05") = true ∧
    (add_batch_autosequence tot50 init_state ("P1") ("01.03.2025") (some ("9:05")) none
        ("draft")).1 = AddBatchResult.ok 1 ∧
    (add_batch_autosequence tot50 mix1 ("P1") ("01.03.2025") (some ("08:00")) none
        ("draft")).1 = AddBatchResult.ok 2 ∧
    hhmm_to_minutes ("08:00") < hhmm_to_minutes ("9:05") ∧
    ({ batch_id := 1, practical_code := ("P1"), batch_no := 1, day_index := 1,
       date := ("01.03.2025"), start_time := ("9:05"), end_time := ("12:05"),
       room_lab := none, status := ("draft") } : BatchRow) ∈ mix2.batches ∧
    ({ batch_id := 2, practical_code := ("P1"), batch_no := 2, day_index := 1,
       date := ("01.03.2025"), start_time := ("08:00"), end_time := ("11:00"),
       room_lab := none, status := ("draft") } : BatchRow) ∈ mix2.batches := by
  refine ⟨?_, by decide, by decide, by decide, by decide, by decide, by decide⟩
  exact Reachable.add_batch tot50 mix1 ("P1") ("01.03.2025") (some ("08:00")) none ("draft")
    (Reachable.add_batch tot50 init_state ("P1") ("01.03.2025") (some ("9:05")) none
      ("draft") Reachable.init)

/-- C4 counterexample: `dup4` is reachable through the engine's mutators
alone, yet student `S1` is a member of batch 1 and of batch 2, two
distinct batches of the same practical `P1` (on two different dates, so
the date-scoped conflict check does not block the second add). -/
theorem C4_same_practical_twice :
    Reachable dup4 ∧
      ({ batch_id := 1, reg_no := ("S1"), practical_code := ("P1") } : MemberRow) ∈
        dup4.members ∧
      ({ batch_id := 2, reg_no := ("S1"), practical_code := ("P1") } : MemberRow) ∈
        dup4.members := by
  refine ⟨?_, by decide, by decide⟩
  exact Reachable.add_members dup3 2 ("P1") [("S1")]
    (Reachable.add_members dup2 1 ("P1") [("S1")]
      (Reachable.add_batch tot50 demo1 ("P1") ("02.03.2025") (some ("09:00")) none ("draft")
        (Reachable.add_batch tot50 init_state ("P1") ("01.03.2025") (some ("09:00")) none
          ("draft") Reachable.init)))

/-- C4 (amended): in every reachable state a `(batch_id, reg_no)` pair
occurs at most once in `BatchMembers` (per-batch uniqueness); the engine
itself does not prevent one student from belonging to two batches of the
same practical when their slots do not conflict. -/
theorem C4_member_pair_unique (s : St) (h : Reachable s) : MembersUnique s :=
  reachable_members_unique h

/-- C4 witness: the per-batch uniqueness instantiated at the concrete
reachable state `dup4`. -/
theorem C4_member_pair_unique_witness : MembersUnique dup4 :=
  C4_member_pair_unique dup4
    (Reachable.add_members dup3 2 ("P1") [("S1")]
      (Reachable.add_members dup2 1 ("P1") [("S1")]
        (Reachable.add_batch tot50 demo1 ("P1") ("02.03.2025") (some ("09:00")) none ("draft")
          (Reachable.add_batch tot50 init_state ("P1") ("01.03.2025") (some ("09:00")) none
            ("draft") Reachable.init))))

/-- C3 (amended): an edit-batch-timing call on an existing batch whose
coalesced start — the given start string if non-empty, else the stored one
(`start_time or old_start`) — passes `_valid_hhmm` but fails conflict
validation returns a failure whose message lists each conflicting student
with the interfering practical and its stored time strings, leaves
`Batches` and `BatchMembers` untouched, and restores `AssignmentsIndex` up
to fresh `idx_id` primary keys and row order: the multiset of
`(reg_no, date, start, end, practical_code, source_batch_id)` tuples is
exactly the pre-call one. -/
theorem C3_rollback (s : St) (bid : Nat) (dA stA rmA : Option String)
    (b : BatchRow) (tl : List BatchRow)
    (hb : s.batches.filter (fun x => decide (x.batch_id = bid)) = b :: tl)
    (hok : valid_hhmm (upd_new_start b stA) = true)
    (hcs : upd_conflicts s bid (upd_new_date b dA) (upd_new_start b stA)
        (time_add (upd_new_start b stA) RULES.batch_duration_minutes) ≠ []) :
    (update_batch_times s bid dA stA rmA).1 =
      (false,
        "Conflicts detected for existing batch members with new timing. Update aborted.\n\n" ++
          format_conflicts_for_message (upd_conflicts s bid (upd_new_date b dA)
            (upd_new_start b stA)
            (time_add (upd_new_start b stA) RULES.batch_duration_minutes))) ∧
    ((update_batch_times s bid dA stA rmA).2.assignments.map ai_core).Perm
      (s.assignments.map ai_core) ∧
    (update_batch_times s bid dA stA rmA).2.batches = s.batches ∧
    (update_batch_times s bid dA stA rmA).2.members = s.members := by
  unfold update_batch_times
  rw [hb]
  simp only []
  rw [if_neg (by simp [hok]), if_neg hcs]
  exact ⟨rfl, rollback_ai_perm s bid _, rfl, rfl⟩

/-- C3 witness: the rollback property instantiated at the concrete state
`demo4`, moving batch 2 onto a slot that conflicts with its member's
other commitment. -/
theorem C3_rollback_witness :
    (update_batch_times demo4 2 none (some ("10:00")) none).1 =
      (false,
        "Conflicts detected for existing batch members with new timing. Update aborted.\n\n" ++
          format_conflicts_for_message
            (upd_conflicts demo4 2 ("01.03.2025") ("10:00") ("13:00"))) ∧
    ((update_batch_times demo4 2 none (some ("10:00")) none).2.assignments.map ai_core).Perm
      (demo4.assignments.map ai_core) ∧
    (update_batch_times demo4 2 none (some ("10:00")) none).2.batches = demo4.batches ∧
    (update_batch_times demo4 2 none (some ("10:00")) none).2.members = demo4.members :=
  C3_rollback demo4 2 none (some ("10:00")) none
    { batch_id := 2, practical_code := ("P2"), batch_no := 1, day_index := 1,
      date := ("01.03.2025"), start_time := ("14:00"), end_time := ("17:00"), room_lab := none,
      status := ("draft") } [] (by decide) (by decide) (by decide)

/-- C3 counterexample: in the concrete reachable state `demo4`, the
failing edit of batch 2 does list the conflicting student in its message,
but the resulting `AssignmentsIndex` is not byte-identical to the
pre-call table: the rollback re-insert omits `idx_id`, so SQLite's
`AUTOINCREMENT` assigns a fresh primary key to the restored row. -/
theorem C3_not_byte_identical :
    (update_batch_times demo4 2 none (some ("10:00")) none).1 =
      (false,
        "Conflicts detected for existing batch members with new timing. Update aborted.\n\nS1 — P1 (09:00-12:00)") ∧
    (update_batch_times demo4 2 none (some ("10:00")) none).2.assignments ≠
      demo4.assignments := by decide

theorem suggest_spec (s : St) (pc d : String) :
    (count_batches_on_day s pc d = 0 → suggest_next_start_time s pc d = ("09:00")) ∧
    (∀ b ∈ batches_on_day s pc d,
      tkey_le (time_val b.end_time) (time_val (suggest_next_start_time s pc d))) ∧
    (count_batches_on_day s pc d ≠ 0 →
      ∃ b ∈ batches_on_day s pc d, suggest_next_start_time s pc d = b.end_time) := by
  refine ⟨?_, ?_, ?_⟩
  · intro h0
    unfold count_batches_on_day at h0
    rw [List.length_eq_zero] at h0
    unfold suggest_next_start_time
    rw [h0]
    rfl
  · intro b hb
    unfold suggest_next_start_time
    cases hmap : (batches_on_day s pc d).map (fun b => b.end_time) with
    | nil =>
      rw [List.map_eq_nil] at hmap
      rw [hmap] at hb
      cases hb
    | cons e es =>
      have hend : b.end_time ∈ e :: es := by
        rw [← hmap]
        exact List.mem_map_of_mem (fun b => b.end_time) hb
      exact foldl_later_le e es b.end_time hend
  · intro hne
    unfold suggest_next_start_time
    cases hmap : (batches_on_day s pc d).map (fun b => b.end_time) with
    | nil =>
      rw [List.map_eq_nil] at hmap
      unfold count_batches_on_day at hne
      rw [hmap] at hne
      simp at hne
    | cons e es =>
      have hmem : es.foldl later_end e ∈ e :: es := by
        rcases foldl_later_mem e es with hm | hm
        · rw [hm]; exact List.mem_cons_self e es
        · exact List.mem_cons_of_mem e hm
      have : es.foldl later_end e ∈ (batches_on_day s pc d).map (fun b => b.end_time) := by
        rw [hmap]; exact hmem
      rcases List.mem_map.mp this with ⟨b, hb, he⟩
      exact ⟨b, hb, he.symm⟩

/-- C8: a create-batch call with no start time that succeeds inserts a
row (surviving renumbering) whose start is `suggest_next_start_time` —
the stored `end_time` string with the maximal `time(end_time)` key among
that day's batches of the practical (the latest end time already
scheduled, since every stored end is a zero-padded `_time_add` output), or
`"09:00"` when the date has no batch — and whose end is that start plus
the 180-minute duration; so the first auto-started batch of a date runs
09:00–12:00 and the next one starts at the previous batch's end. -/
theorem C8_auto_start (total : String → Nat) (s : St) (pc d : String) (rm : Option String)
    (status : String) (bid : Nat)
    (h : (add_batch_autosequence total s pc d none rm status).1 = AddBatchResult.ok bid) :
    bid = s.next_batch_id ∧
    (count_batches_on_day s pc d = 0 → suggest_next_start_time s pc d = ("09:00")) ∧
    (∀ b ∈ batches_on_day s pc d,
      tkey_le (time_val b.end_time) (time_val (suggest_next_start_time s pc d))) ∧
    (count_batches_on_day s pc d ≠ 0 →
      ∃ b ∈ batches_on_day s pc d, suggest_next_start_time s pc d = b.end_time) ∧
    ((∀ b ∈ batches_on_day s pc d, ¬ time_val b.end_time = none) →
      ∀ b ∈ batches_on_day s pc d,
        hhmm_to_minutes b.end_time ≤ hhmm_to_minutes (suggest_next_start_time s pc d)) ∧
    ∃ nb ∈ (add_batch_autosequence total s pc d none rm status).2.batches,
      nb.batch_id = bid ∧ nb.practical_code = pc ∧ nb.date = d ∧
      nb.start_time = suggest_next_start_time s pc d ∧
      nb.end_time = time_add (suggest_next_start_time s pc d)
        RULES.batch_duration_minutes := by
  obtain ⟨hs1, hs2, hs3⟩ := suggest_spec s pc d
  have hs4 : (∀ b ∈ batches_on_day s pc d, ¬ time_val b.end_time = none) →
      ∀ b ∈ batches_on_day s pc d,
        hhmm_to_minutes b.end_time ≤ hhmm_to_minutes (suggest_next_start_time s pc d) := by
    intro hall b hb
    have hcnt : count_batches_on_day s pc d ≠ 0 := by
      unfold count_batches_on_day
      intro h0
      rw [List.length_eq_zero] at h0
      rw [h0] at hb
      cases hb
    rcases hs3 hcnt with ⟨b', hb', hsug⟩
    have hkey := hs2 b hb
    rcases hvb : time_val b.end_time with _ | vb
    · exact absurd hvb (hall b hb)
    rcases hvs : time_val (suggest_next_start_time s pc d) with _ | vs
    · rw [hsug] at hvs
      exact absurd hvs (hall b' hb')
    rw [hvb, hvs] at hkey
    rw [time_val_minutes hvb, time_val_minutes hvs]
    exact hkey
  unfold add_batch_autosequence at h ⊢
  by_cases hr : (ensure_rules_before_batch total s pc d (count_batches_on_day s pc d + 1)).1
      = false
  · rw [if_pos hr] at h
    exact absurd h (by simp)
  · rw [if_neg hr] at h ⊢
    have hbid : bid = s.next_batch_id := by
      simp only [AddBatchResult.ok.injEq] at h
      exact h.symm
    refine ⟨hbid, hs1, hs2, hs3, hs4, ?_⟩
    have hmem0 :
        ({ batch_id :=
              (delete_duplicate_batch_rows s pc d (suggest_next_start_time s pc d)).next_batch_id,
           practical_code := pc, batch_no := count_batches_on_day s pc d + 1, day_index := 1,
           date := d, start_time := suggest_next_start_time s pc d,
           end_time := time_add (suggest_next_start_time s pc d) RULES.batch_duration_minutes,
           room_lab := rm, status := status } : BatchRow) ∈
          ({ delete_duplicate_batch_rows s pc d (suggest_next_start_time s pc d) with
             batches :=
               (delete_duplicate_batch_rows s pc d (suggest_next_start_time s pc d)).batches ++
               [{ batch_id :=
                    (delete_duplicate_batch_rows s pc d
                      (suggest_next_start_time s pc d)).next_batch_id,
                  practical_code := pc, batch_no := count_batches_on_day s pc d + 1,
                  day_index := 1, date := d, start_time := suggest_next_start_time s pc d,
                  end_time := time_add (suggest_next_start_time s pc d)
                    RULES.batch_duration_minutes,
                  room_lab := rm, status := status }],
             next_batch_id :=
               (delete_duplicate_batch_rows s pc d
                 (suggest_next_start_time s pc d)).next_batch_id + 1 } : St).batches :=
      List.mem_append.mpr (Or.inr (List.mem_singleton.mpr rfl))
    rcases mem_reorder_of_mem hmem0 pc with ⟨nb, hnb, he⟩
    obtain ⟨hid, hcode, hdate, hstart, hend⟩ := row_core_fields he
    exact ⟨nb, hnb, by rw [hid, hbid]; rfl, hcode, hdate, hstart, hend⟩

/-- C8 witness: creating the first batch of `P1` on an empty store with
no explicit start yields a row starting at the suggested time `"09:00"`
and ending 180 minutes later. -/
theorem C8_auto_start_witness :
    (1 : Nat) = init_state.next_batch_id ∧
    (count_batches_on_day init_state ("P1") ("01.03.2025") = 0 →
      suggest_next_start_time init_state ("P1") ("01.03.2025") = ("09:00")) ∧
    (∀ b ∈ batches_on_day init_state ("P1") ("01.03.2025"),
      tkey_le (time_val b.end_time)
        (time_val (suggest_next_start_time init_state ("P1") ("01.03.2025")))) ∧
    (count_batches_on_day init_state ("P1") ("01.03.2025") ≠ 0 →
      ∃ b ∈ batches_on_day init_state ("P1") ("01.03.2025"),
        suggest_next_start_time init_state ("P1") ("01.03.2025") = b.end_time) ∧
    ((∀ b ∈ batches_on_day init_state ("P1") ("01.03.2025"), ¬ time_val b.end_time = none) →
      ∀ b ∈ batches_on_day init_state ("P1") ("01.03.2025"),
        hhmm_to_minutes b.end_time ≤
          hhmm_to_minutes (suggest_next_start_time init_state ("P1") ("01.03.2025"))) ∧
    ∃ nb ∈ (add_batch_autosequence tot50 init_state ("P1") ("01.03.2025") none none
        ("draft")).2.batches,
      nb.batch_id = 1 ∧ nb.practical_code = ("P1") ∧ nb.date = ("01.03.2025") ∧
      nb.start_time = suggest_next_start_time init_state ("P1") ("01.03.2025") ∧
      nb.end_time = time_add (suggest_next_start_time init_state ("P1") ("01.03.2025"))
        RULES.batch_duration_minutes :=
  C8_auto_start tot50 init_state ("P1") ("01.03.2025") none ("draft") 1 (by decide)

/-!
## Claim theorems
-/


/-- C1: for any two same-date half-open intervals (as minute-of-day values
of their `HH:MM` strings) and any configured minimum gap, the conflict
detector `_overlap_or_gap_less_than` reports a conflict exactly when the
intervals strictly overlap (`A_s < B_e` and `B_s < A_e`; touching
end-to-start is not an overlap), or they are disjoint with a gap of at
least `0` and strictly less than the minimum gap (a gap exactly equal to
the minimum, e.g. 60 minutes under `RULES`, is not a conflict). -/
theorem C1_conflict_detector (a_s a_e b_s b_e min_gap : Nat) :
    overlap_or_gap_less_than a_s a_e b_s b_e min_gap = true ↔
      claim_conflict a_s a_e b_s b_e min_gap := by
  unfold overlap_or_gap_less_than claim_conflict
  split
  · simp only [true_iff]; tauto
  · simp only []
    split
    · simp only [true_iff]; omega
    · simp only [Bool.false_eq_true, false_iff]; omega

/-- C5: when a practical already has at least `RULES.max_batches_per_day_per_practical`
(3) batches on a date, a create-batch request for that date is denied with
an error and no state change, regardless of the practical's total candidate
count; and when the total candidate count is at most 90, the denial reason
is the `≤90`-candidate-specific message rather than the generic per-day cap
message. -/
theorem C5_day_cap (total : String → Nat) (s : St) (pc d : String)
    (st rm : Option String) (status : String)
    (h : RULES.max_batches_per_day_per_practical ≤ count_batches_on_day s pc d) :
    (∃ msg, (add_batch_autosequence total s pc d st rm status).1 = AddBatchResult.err msg) ∧
    (add_batch_autosequence total s pc d st rm status).2 = s ∧
    (total pc ≤ 90 →
      (add_batch_autosequence total s pc d st rm status).1 =
        AddBatchResult.err ("For ≤90 candidates, maximum 3 batches allowed on a single day.")) := by
  have h3 : 3 ≤ count_batches_on_day s pc d := h
  unfold add_batch_autosequence ensure_rules_before_batch
  by_cases h90 : total pc ≤ 90
  · have hi : (3 < count_batches_on_day s pc d + 1) := by omega
    simp [h90, hi]
  · simp [h90, h3, RULES, h]

/-- C5 witness: creating a fourth batch of `P1` on `01.03.2025` in the
concrete three-batch state `full_day` (catalog: 50 candidates) is denied
with the `≤90`-specific reason and leaves the state unchanged. -/
theorem C5_day_cap_witness :
    (∃ msg, (add_batch_autosequence tot50 full_day ("P1") ("01.03.2025") none none
        ("draft")).1 = AddBatchResult.err msg) ∧
    (add_batch_autosequence tot50 full_day ("P1") ("01.03.2025") none none ("draft")).2 =
      full_day ∧
    (tot50 ("P1") ≤ 90 →
      (add_batch_autosequence tot50 full_day ("P1") ("01.03.2025") none none ("draft")).1 =
        AddBatchResult.err ("For ≤90 candidates, maximum 3 batches allowed on a single day.")) :=
  C5_day_cap tot50 full_day ("P1") ("01.03.2025") none none ("draft") (by decide)

/-- C6 (amended): for an add-members request whose capacity pre-check
passes, if any requested student has a conflicting commitment at the
batch's slot then no student is admitted, no `BatchMembers` or
`AssignmentsIndex` row is written (the state is returned unchanged), and
the failure carries the per-student conflict list, both structurally and
formatted into the message. -/
theorem C6_all_or_nothing (s : St) (bid : Nat) (pc : String) (regs : List String)
    (b : BatchRow) (tl : List BatchRow)
    (hb : s.batches.filter (fun x => decide (x.batch_id = bid)) = b :: tl)
    (hcap : (s.members.filter (fun m => decide (m.batch_id = bid))).length + regs.length ≤
      RULES.batch_size_max)
    (hcs : check_conflicts_for_students s b.date b.start_time b.end_time regs none ≠ []) :
    add_students_to_batch s bid pc regs =
      ((false,
        "Conflict(s) detected. No students were added.\n\n" ++
          format_conflicts_for_message
            (check_conflicts_for_students s b.date b.start_time b.end_time regs none),
        check_conflicts_for_students s b.date b.start_time b.end_time regs none), s) := by
  unfold add_students_to_batch
  rw [hb]
  have hcap2 : ¬ (RULES.batch_size_max <
      (s.members.filter (fun m => decide (m.batch_id = bid))).length + regs.length) := by
    omega
  simp only []
  rw [if_neg hcap2, if_neg hcs]

/-- C6 witness: requesting the single conflicted student `S1` for batch 3
of `clash2` (capacity check passes) is refused with the state unchanged
and the conflict list carried in the failure. -/
theorem C6_all_or_nothing_witness :
    add_students_to_batch clash2 3 ("P2") [("S1")] =
      ((false,
        "Conflict(s) detected. No students were added.\n\n" ++
          format_conflicts_for_message
            (check_conflicts_for_students clash2 ("01.03.2025") ("10:00") ("13:00")
              [("S1")] none),
        check_conflicts_for_students clash2 ("01.03.2025") ("10:00") ("13:00") [("S1")]
          none), clash2) :=
  C6_all_or_nothing clash2 3 ("P2") [("S1")]
    { batch_id := 3, practical_code := ("P2"), batch_no := 1, day_index := 1,
      date := ("01.03.2025"), start_time := ("10:00"), end_time := ("13:00"), room_lab := none,
      status := ("draft") } [] (by decide) (by decide) (by decide)

/-- C6 counterexample: in the concrete state `clash2`, the 31-student
request `regs31` for batch 3 contains the student `S1` whose commitment
conflicts with batch 3's slot (`10:00`–`13:00`), yet the request fails the
capacity pre-check first, so the returned failure carries the empty
conflict list instead of the per-student conflict list the claim
promises. -/
theorem C6_capacity_preempts_conflicts :
    ((check_conflicts_for_students clash2 ("01.03.2025") ("10:00") ("13:00") regs31 none).map
        (fun p => p.1) = [("S1")]) ∧
    add_students_to_batch clash2 3 ("P2") regs31 =
      ((false, "Cannot exceed 30 students per batch.", []), clash2) := by decide

/-- C7 (amended): a non-empty start-time string rejected by `_valid_hhmm`
(not parseable as one-or-two-digit 24-hour `H:MM`) makes edit-batch-timing
fail with no state change; an empty start string is falsy for
`start_time or old_start`, so the edit call treats it exactly like an
absent start (it proceeds against the stored start and can succeed); and
create-batch does not reject a malformed start either: it behaves exactly
as if no start time had been given, falling back to the suggested
start. -/
theorem C7_time_validation (s : St) (bid : Nat) (dA rmA : Option String) (str : String)
    (total : String → Nat) (pc d : String) (rm : Option String) (status : String)
    (hne : ¬ str = "") (hstr : valid_hhmm str = false) :
    ((update_batch_times s bid dA (some str) rmA).1.1 = false ∧
      (update_batch_times s bid dA (some str) rmA).2 = s) ∧
    update_batch_times s bid dA (some ("")) rmA = update_batch_times s bid dA none rmA ∧
    add_batch_autosequence total s pc d (some str) rm status =
      add_batch_autosequence total s pc d none rm status := by
  refine ⟨?_, ?_, ?_⟩
  · unfold update_batch_times
    cases hfil : s.batches.filter (fun b => decide (b.batch_id = bid)) with
    | nil => exact ⟨rfl, rfl⟩
    | cons b tl =>
      have hns : upd_new_start b (some str) = str := by
        show (if str = "" then b.start_time else str) = str
        rw [if_neg hne]
      simp [hns, hstr]
  · unfold update_batch_times
    cases hfil : s.batches.filter (fun b => decide (b.batch_id = bid)) with
    | nil => rfl
    | cons b tl =>
      have hns : upd_new_start b (some ("")) = upd_new_start b none := by
        show (if ("" : String) = "" then b.start_time else "") = b.start_time
        rw [if_pos rfl]
      simp only [hns]
  · unfold add_batch_autosequence
    simp [hstr]

/-- C7 witness: with the malformed start `"99:99"`, edit-batch-timing on
batch 1 of `demo1` fails and leaves the state unchanged, the empty start
`""` makes the edit call behave as if no start had been supplied, and
create-batch on `02.03.2025` likewise falls back to the suggestion. -/
theorem C7_time_validation_witness :
    ((update_batch_times demo1 1 none (some ("99:99")) none).1.1 = false ∧
      (update_batch_times demo1 1 none (some ("99:99")) none).2 = demo1) ∧
    update_batch_times demo1 1 none (some ("")) none =
      update_batch_times demo1 1 none none none ∧
    add_batch_autosequence tot50 demo1 ("P1") ("02.03.2025") (some ("99:99")) none ("draft") =
      add_batch_autosequence tot50 demo1 ("P1") ("02.03.2025") none none ("draft") :=
  C7_time_validation demo1 1 none none ("99:99") tot50 ("P1") ("02.03.2025") none ("draft")
    (by decide) (by decide)

/-- C7 counterexample: `"banana"` is not a valid time string, yet the
create-batch call given it as explicit start is not rejected: it succeeds
(returning the new batch id) and changes the state, contradicting the
claim that both mutators reject a malformed explicit start time. -/
theorem C7_create_accepts_malformed_start :
    valid_hhmm ("banana") = false ∧
    (add_batch_autosequence tot50 init_state ("P1") ("01.03.2025") (some ("banana")) none
        ("draft")).1 = AddBatchResult.ok 1 ∧
    (add_batch_autosequence tot50 init_state ("P1") ("01.03.2025") (some ("banana")) none
        ("draft")).2 ≠ init_state := by decide

/-- C10: the capacity pre-check of add-members compares the current member
count plus the raw length of the requested list against the 30-seat cap
(any such request is rejected with the capacity error and no state
change), and in the concrete state `cap_full` — where all 30 requested
students are already members of batch 1, so admitting them again would
leave the member count at 30 — a one-student request for an existing
member is still rejected with the capacity error. -/
theorem C10_capacity_raw_length :
    (∀ (s : St) (bid : Nat) (pc : String) (regs : List String) (b : BatchRow)
        (tl : List BatchRow),
        s.batches.filter (fun x => decide (x.batch_id = bid)) = b :: tl →
        RULES.batch_size_max <
            (s.members.filter (fun m => decide (m.batch_id = bid))).length + regs.length →
        add_students_to_batch s bid pc regs =
          ((false, "Cannot exceed 30 students per batch.", []), s)) ∧
    ((regs30.all (fun r =>
        cap_full.members.any (fun m => decide (m.batch_id = 1 ∧ m.reg_no = r))) = true) ∧
      (cap_full.members.filter (fun m => decide (m.batch_id = 1))).length = 30 ∧
      add_students_to_batch cap_full 1 ("P1") [("R01")] =
        ((false, "Cannot exceed 30 students per batch.", []), cap_full)) := by
  constructor
  · intro s bid pc regs b tl hb hover
    unfold add_students_to_batch
    rw [hb]
    simp only []
    rw [if_pos hover]
    rfl
  · refine ⟨by decide, by decide, by decide⟩

/-- C10 witness: a 31-student request for batch 1 of `demo3` (which holds
one member) trips the raw-length capacity pre-check and is rejected with
the capacity error and no state change. -/
theorem C10_capacity_raw_length_witness :
    add_students_to_batch demo3 1 ("P1") regs31 =
      ((false, "Cannot exceed 30 students per batch.", []), demo3) :=
  C10_capacity_raw_length.1 demo3 1 ("P1") regs31
    { batch_id := 1, practical_code := ("P1"), batch_no := 1, day_index := 1,
      date := ("01.03.2025"), start_time := ("09:00"), end_time := ("12:00"), room_lab := none,
      status := ("draft") } [] (by decide) (by decide)

end Scheduler
